import Mathlib

/-!
Verification development for the OpenGenerator core: the universal schema IR,
the merge engine (file-path and dependency-version conflict resolution), the
orchestrator (plugin registration, priority ordering, generate, validate) and
the Prisma parser's relation extraction.

The definitions are a shallow embedding of the TypeScript sources
(packages/core/src/types/schema.ts, types/generator.ts, src/generator.ts and
packages/parsers/prisma).  TypeScript `async` functions that can throw are
modelled as `Except String`-valued functions; JavaScript `Map`s (string keyed,
insertion ordered, where the key always equals a field of the stored value)
are modelled as lists with the JS `get`/`set` semantics; filesystem, network
and template rendering are I/O and outside the model.
-/

namespace OpenGen

/-! ### Schema IR (types/schema.ts) -/

/-- A JS `Record<string, unknown>` whose values the core never inspects;
values are represented by their textual form. -/
abbrev JsRecord := List (String × String)

/-- `ScalarType` (types/schema.ts). -/
inductive ScalarType where
  | string | number | integer | boolean | date | datetime | time | json
  | bigint | decimal | float | bytes | uuid
deriving DecidableEq, Repr

/-- `SchemaSource` (types/schema.ts). -/
inductive SchemaSource where
  | openapi | prisma | jsonSchema | zod | typebox | vld
deriving DecidableEq, Repr

/-- `RelationType` (types/schema.ts). -/
inductive RelationType where
  | oneToOne | oneToMany | manyToOne | manyToMany
deriving DecidableEq, Repr

/-- `CascadeAction` (types/schema.ts). -/
inductive CascadeAction where
  | cascade | restrict | setNull | setDefault | noAction
deriving DecidableEq, Repr

/-- `FieldDefault` (types/schema.ts); a literal's `unknown` value is opaque to
the core and represented textually. -/
inductive FieldDefault where
  | literal (value : String)
  | function (name : String)
  | expression (expression : String)
deriving DecidableEq, Repr

/-- `ValidationRules` (types/schema.ts). -/
structure ValidationRules where
  min : Option Int
  max : Option Int
  positive : Option Bool
  negative : Option Bool
  integer : Option Bool
  multipleOf : Option Int
  minLength : Option Int
  maxLength : Option Int
  pattern : Option String
  email : Option Bool
  url : Option Bool
  uuid : Option Bool
  cuid : Option Bool
  datetime : Option Bool
  minItems : Option Int
  maxItems : Option Int
  uniqueItems : Option Bool
  custom : Option String
deriving DecidableEq, Repr

/-- `FieldRelation` (types/schema.ts). -/
structure FieldRelation where
  type : RelationType
  model : String
  field : String
  foreignKey : Option String
  name : Option String
deriving DecidableEq, Repr

mutual

/-- `FieldType` (types/schema.ts): the closed tagged union of scalar, enum
reference, array, inline object and model reference. -/
inductive FieldType : Type where
  | scalar (type : ScalarType) : FieldType
  | enum (name : String) : FieldType
  | array (of : FieldType) : FieldType
  | object (fields : List Field) : FieldType
  | reference (model : String) : FieldType

/-- `Field` (types/schema.ts); mutually recursive with `FieldType` through
object field types.  Constructor arguments follow the interface order. -/
inductive Field : Type where
  | mk (name : String) (type : FieldType) (description : Option String)
      (required : Bool) (unique : Option Bool) (primaryKey : Option Bool)
      (default : Option FieldDefault) (validation : Option ValidationRules)
      (relation : Option FieldRelation) (columnName : Option String)
      (hidden : Option Bool) (readOnly : Option Bool) (writeOnly : Option Bool)
      (meta : Option JsRecord) : Field

end

/-- Projection of the `name` field. -/
def Field.name : Field → String
  | .mk n _ _ _ _ _ _ _ _ _ _ _ _ _ => n

/-- Projection of the `relation` field. -/
def Field.relation : Field → Option FieldRelation
  | .mk _ _ _ _ _ _ _ _ r _ _ _ _ _ => r

/-- `IndexField` (types/schema.ts); `order` is one of `asc`/`desc`. -/
structure IndexField where
  name : String
  order : Option String
deriving DecidableEq, Repr

/-- `Index` (types/schema.ts); `type` is the index-type string. -/
structure Index where
  name : Option String
  fields : List IndexField
  unique : Option Bool
  type : Option String
deriving DecidableEq, Repr

/-- The anonymous `references` object of `Constraint` (types/schema.ts). -/
structure ConstraintReferences where
  model : String
  fields : List String
  onDelete : Option CascadeAction
  onUpdate : Option CascadeAction
deriving DecidableEq, Repr

/-- `Constraint` (types/schema.ts); `type` is one of
`unique`/`check`/`foreignKey`. -/
structure Constraint where
  type : String
  name : Option String
  fields : List String
  expression : Option String
  references : Option ConstraintReferences
deriving DecidableEq, Repr

/-- `CrudConfig` (types/schema.ts). -/
structure CrudConfig where
  create : Bool
  read : Bool
  update : Bool
  delete : Bool
  list : Bool
  bulkCreate : Option Bool
  bulkUpdate : Option Bool
  bulkDelete : Option Bool
  upsert : Option Bool
  count : Option Bool
deriving DecidableEq, Repr

/-- `OperationAuth` (types/schema.ts). -/
structure OperationAuth where
  required : Option Bool
  roles : Option (List String)
  permissions : Option (List String)
deriving DecidableEq, Repr

/-- `ModelAuthConfig` (types/schema.ts); the `operations` partial record is a
list of (operation name, auth) pairs. -/
structure ModelAuthConfig where
  required : Option Bool
  roles : Option (List String)
  permissions : Option (List String)
  ownerField : Option String
  operations : Option (List (String × OperationAuth))
deriving DecidableEq, Repr

/-- `Model` (types/schema.ts). -/
structure Model where
  name : String
  description : Option String
  tableName : Option String
  fields : List Field
  indexes : Option (List Index)
  constraints : Option (List Constraint)
  crud : CrudConfig
  auth : Option ModelAuthConfig
  softDelete : Option Bool
  timestamps : Option Bool
  meta : Option JsRecord

/-- An endpoint (`from`/`to`) of a `Relation` (types/schema.ts). -/
structure RelationEndpoint where
  model : String
  field : String
deriving DecidableEq, Repr

/-- The `through` join description of a `Relation` (types/schema.ts). -/
structure RelationThrough where
  model : String
  fromField : String
  toField : String
deriving DecidableEq, Repr

/-- `Relation` (types/schema.ts); `from`/`to` are named `from_`/`to_` because
`from` is a Lean keyword. -/
structure Relation where
  name : String
  type : RelationType
  from_ : RelationEndpoint
  to_ : RelationEndpoint
  onDelete : Option CascadeAction
  onUpdate : Option CascadeAction
  through : Option RelationThrough
deriving DecidableEq, Repr

/-- `EnumValue` (types/schema.ts); the string-or-number `value` is kept
textually. -/
structure EnumValue where
  name : String
  value : Option String
  description : Option String
deriving DecidableEq, Repr

/-- `Enum` (types/schema.ts). -/
structure Enum where
  name : String
  description : Option String
  values : List EnumValue
deriving DecidableEq, Repr

/-- `SchemaMetadata` (types/schema.ts). -/
structure SchemaMetadata where
  name : String
  description : Option String
  source : SchemaSource
  sourceVersion : Option String
  filePath : Option String
  generatedAt : Option String
deriving DecidableEq, Repr

/-- `SchemaIR` (types/schema.ts); `version` is the fixed literal "1.0.0". -/
structure SchemaIR where
  version : String
  metadata : SchemaMetadata
  models : List Model
  enums : List Enum
  relations : List Relation

/-! ### Generated output currency (types/generator.ts) -/

/-- `GeneratedFile` (types/generator.ts); `type` is the categorization string,
`encoding` the BufferEncoding string, `mode` the numeric permission bits. -/
structure GeneratedFile where
  path : String
  content : String
  type : Option String
  overwrite : Option Bool
  encoding : Option String
  mode : Option Nat
deriving DecidableEq, Repr

/-- `Dependency` (types/generator.ts); `type` is one of
`dependencies`/`devDependencies`/`peerDependencies`. -/
structure Dependency where
  name : String
  version : String
  type : Option String
  dev : Option Bool
deriving DecidableEq, Repr

/-- `GeneratedCode` (types/generator.ts). -/
structure GeneratedCode where
  files : List GeneratedFile
  dependencies : List Dependency
  metadata : Option JsRecord
deriving DecidableEq, Repr

/-- The `{ files: [], dependencies: [] }` accumulator seed used by
`OpenGenerator.generate`. -/
def emptyGeneratedCode : GeneratedCode :=
  { files := [], dependencies := [], metadata := none }

/-! ### Semver parsing and comparison (types/generator.ts) -/

/-- The numeric value of a list of decimal digits. -/
def digitsToNat (ds : List Char) : Nat :=
  ds.foldl (fun n c => n * 10 + (c.toNat - 48)) 0

/-- JS `parseInt(p) || 0`: an optional sign followed by a longest digit
prefix; `NaN` (no digits) coerces to `0`. -/
def jsParseIntOr0 (s : String) : Int :=
  match s.data with
  | '-' :: rest =>
      let ds := rest.takeWhile Char.isDigit
      if ds.isEmpty then 0 else -(digitsToNat ds : Int)
  | '+' :: rest =>
      let ds := rest.takeWhile Char.isDigit
      if ds.isEmpty then 0 else (digitsToNat ds : Int)
  | cs =>
      let ds := cs.takeWhile Char.isDigit
      if ds.isEmpty then 0 else (digitsToNat ds : Int)

/-- JS `String.prototype.split` with a single-character separator. -/
def jsSplitAux (sep : Char) : List Char → List Char → List String
  | [], acc => [String.mk acc.reverse]
  | c :: cs, acc =>
      if c == sep then String.mk acc.reverse :: jsSplitAux sep cs []
      else jsSplitAux sep cs (c :: acc)

/-- JS `s.split(sep)` for a one-character separator string. -/
def jsSplit (s : String) (sep : Char) : List String :=
  jsSplitAux sep s.data []

/-- The regex `^[\^~>=<]+` removal in `parseSemver`. -/
def stripRangeOperators (s : String) : String :=
  String.mk (s.data.dropWhile
    (fun c => c == '^' || c == '~' || c == '>' || c == '=' || c == '<'))

/-- The record returned by `parseSemver` (types/generator.ts). -/
structure Semver where
  major : Int
  minor : Int
  patch : Int
  prerelease : Option String
deriving DecidableEq, Repr

/-- `parseSemver` (types/generator.ts): strip a leading range operator, split
off a prerelease suffix at the first dash, and read the dot-separated numeric
components (missing or non-numeric components count as 0). -/
def parseSemver (version : String) : Semver :=
  let cleaned := stripRangeOperators version
  let dashParts := jsSplit cleaned '-'
  let main := dashParts.headD "0.0.0"
  let parts := (jsSplit main '.').map jsParseIntOr0
  { major := parts.getD 0 0
    minor := parts.getD 1 0
    patch := parts.getD 2 0
    prerelease := dashParts[1]? }

/-- JS truthiness of the optional prerelease component of a parsed version
(`undefined` and the empty string are falsy). -/
def prereleaseTruthy : Option String → Bool
  | some s => !s.isEmpty
  | none => false

/-- `compareSemver` (types/generator.ts): 1 if `a > b`, -1 if `a < b`, 0 if
equal; major, then minor, then patch, then release-beats-prerelease. -/
def compareSemver (a b : String) : Int :=
  let verA := parseSemver a
  let verB := parseSemver b
  if verA.major != verB.major then (if verA.major > verB.major then 1 else -1)
  else if verA.minor != verB.minor then (if verA.minor > verB.minor then 1 else -1)
  else if verA.patch != verB.patch then (if verA.patch > verB.patch then 1 else -1)
  else if prereleaseTruthy verA.prerelease && !(prereleaseTruthy verB.prerelease) then -1
  else if !(prereleaseTruthy verA.prerelease) && prereleaseTruthy verB.prerelease then 1
  else 0

/-! ### Dependency merge (types/generator.ts) -/

/-- JS `merged.get(name)` on the insertion-ordered dependency map; every key
equals the `name` of the stored dependency, so the map is represented by its
value list. -/
def findDep (m : List Dependency) (name : String) : Option Dependency :=
  m.find? (fun d => d.name == name)

/-- JS `merged.set(d.name, d)`: update in place if the key is present,
otherwise append. -/
def setDep (m : List Dependency) (d : Dependency) : List Dependency :=
  if m.any (fun e => e.name == d.name) then
    m.map (fun e => if e.name == d.name then d else e)
  else m ++ [d]

/-- One iteration of the `mergeDependencies` loop (types/generator.ts): on a
name collision prefer the higher version by `compareSemver`, then force
`dev := false` if either entry has `dev === false`.  The source reads the
updated map with a non-null assertion; the impossible `none` case is the
identity. -/
def insertDep (m : List Dependency) (dep : Dependency) : List Dependency :=
  match findDep m dep.name with
  | some existing =>
      let m1 := if compareSemver dep.version existing.version > 0 then setDep m dep else m
      if existing.dev == some false || dep.dev == some false then
        match findDep m1 dep.name with
        | some current => setDep m1 { current with dev := some false }
        | none => m1
      else m1
  | none => setDep m dep

/-- `mergeDependencies` (types/generator.ts): fold `[...a, ...b]` into an
insertion-ordered map keyed by package name. -/
def mergeDependencies (a b : List Dependency) : List Dependency :=
  (a ++ b).foldl insertDep []

/-! ### File merge (types/generator.ts) -/

/-- The `fileStrategy` option of `mergeGeneratedCode`. -/
inductive FileStrategy where
  | lastWins | firstWins | error
deriving DecidableEq, Repr

/-- JS `fileMap.get(path)`; every key equals the `path` of the stored file, so
the map is represented by its value list. -/
def findFile (m : List GeneratedFile) (path : String) : Option GeneratedFile :=
  m.find? (fun f => f.path == path)

/-- JS `fileMap.set(f.path, f)`: update in place if the key is present,
otherwise append. -/
def setFile (m : List GeneratedFile) (f : GeneratedFile) : List GeneratedFile :=
  if m.any (fun g => g.path == f.path) then
    m.map (fun g => if g.path == f.path then f else g)
  else m ++ [f]

/-- One iteration of the `mergeGeneratedCode` loop: on a path collision the
`error` strategy throws, `last-wins` overwrites, `first-wins` keeps the
existing entry. -/
def insertFile (strategy : FileStrategy) (fileMap : List GeneratedFile)
    (file : GeneratedFile) : Except String (List GeneratedFile) :=
  match findFile fileMap file.path with
  | some _ =>
      match strategy with
      | .error =>
          .error ("File conflict: " ++ file.path ++ " is generated by multiple plugins")
      | .lastWins => .ok (setFile fileMap file)
      | .firstWins => .ok fileMap
  | none => .ok (setFile fileMap file)

/-- The `for (const file of allFiles)` loop of `mergeGeneratedCode`; a thrown
conflict propagates. -/
def processFiles (strategy : FileStrategy) (fileMap : List GeneratedFile) :
    List GeneratedFile → Except String (List GeneratedFile)
  | [] => .ok fileMap
  | file :: rest =>
      match insertFile strategy fileMap file with
      | .error e => .error e
      | .ok m => processFiles strategy m rest

/-- `mergeGeneratedCode` (types/generator.ts): deduplicate
`[...a.files, ...b.files]` by path under the given strategy and merge the
dependency lists.  The returned object carries no `metadata` field. -/
def mergeGeneratedCode (a b : GeneratedCode) (fileStrategy : FileStrategy) :
    Except String GeneratedCode :=
  match processFiles fileStrategy [] (a.files ++ b.files) with
  | .error e => .error e
  | .ok files =>
      .ok { files := files
            dependencies := mergeDependencies a.dependencies b.dependencies
            metadata := none }

/-- `mergeGeneratedCode(a, b)` with the options argument defaulted, i.e. the
`last-wins` strategy. -/
def mergeGeneratedCodeDefault (a b : GeneratedCode) : Except String GeneratedCode :=
  mergeGeneratedCode a b .lastWins

/-! ### Plugin contracts (types/parser.ts, types/generator.ts,
types/adapter.ts, types/auth.ts, types/database.ts, types/deploy.ts)

Plugin methods that the orchestrator never invokes (`postProcess`,
`generateEntryPoint`, `generateMiddleware`, `generateMigrations`,
`generateSeeds`, `generateRoutes`, `getMiddleware`, per-plugin `validate`) are
omitted from the embedding, as are the capability-specific nested option
records, which the orchestrator passes through without inspecting.  The
orchestrator hands every plugin the same options object it received, so plugin
functions are typed over `GenerateOptions`. -/

/-- `SourceLocation` (types/parser.ts). -/
structure SourceLocation where
  line : Nat
  column : Nat
  endLine : Option Nat
  endColumn : Option Nat
  filePath : Option String
deriving DecidableEq, Repr

/-- `ValidationError` (types/parser.ts); `severity` is the literal "error". -/
structure ValidationError where
  message : String
  location : Option SourceLocation
  code : Option String
  severity : String
deriving DecidableEq, Repr

/-- `ValidationWarning` (types/parser.ts); `severity` is the literal
"warning". -/
structure ValidationWarning where
  message : String
  location : Option SourceLocation
  code : Option String
  severity : String
deriving DecidableEq, Repr

/-- `ValidationResult` (types/parser.ts). -/
structure ValidationResult where
  valid : Bool
  errors : List ValidationError
  warnings : List ValidationWarning
deriving DecidableEq, Repr

/-- `ParserOptions` (types/parser.ts); the model/field transform callbacks and
`custom` bag are carried opaquely. -/
structure ParserOptions where
  filePath : Option String
  basePath : Option String
  preserveComments : Option Bool
  modelTransforms : Option (List (String → Option String))
  fieldTransforms : Option (List (String → String → Option String))
  strict : Option Bool
  custom : Option JsRecord

/-- `ParserPlugin` (types/parser.ts); `parse` takes the input content and the
options object built by the orchestrator. -/
structure ParserPlugin where
  name : String
  version : String
  extensions : List String
  contentTypes : Option (List String)
  canParse : String → Option String → Bool
  parse : String → ParserOptions → Except String SchemaIR

/-- `GenerateOptions` (src/generator.ts): the `GeneratorOptions` base
(`output`, `schema`) plus the `write`/`dryRun` flags. -/
structure GenerateOptions where
  output : String
  schema : String
  write : Option Bool
  dryRun : Option Bool

/-- `GeneratorPlugin` (types/generator.ts); `style` is the `ApiStyle` tag
(`rest`/`graphql`/`trpc`), `getDependencies`/`getPeerDependencies` are pure
thunks represented by their results. -/
structure GeneratorPlugin where
  name : String
  version : String
  style : String
  priority : Option Int
  generate : SchemaIR → GenerateOptions → Except String GeneratedCode
  getDependencies : List Dependency
  getPeerDependencies : Option (List Dependency)

/-- `AdapterPlugin` (types/adapter.ts); `framework` is the `FrameworkType`
tag. -/
structure AdapterPlugin where
  name : String
  version : String
  framework : String
  priority : Option Int
  adapt : GeneratedCode → GenerateOptions → Except String GeneratedCode
  getDependencies : List Dependency
  getPeerDependencies : Option (List Dependency)

/-- `AuthPlugin` (types/auth.ts); `strategy` is the `AuthStrategy` tag. -/
structure AuthPlugin where
  name : String
  version : String
  strategy : String
  priority : Option Int
  generate : SchemaIR → GenerateOptions → Except String GeneratedCode
  getDependencies : List Dependency
  getPeerDependencies : Option (List Dependency)

/-- `DatabasePlugin` (types/database.ts); `adapter` is the `DatabaseAdapter`
tag. -/
structure DatabasePlugin where
  name : String
  version : String
  adapter : String
  priority : Option Int
  generate : SchemaIR → GenerateOptions → Except String GeneratedCode
  getDependencies : List Dependency
  getPeerDependencies : Option (List Dependency)

/-- `DeployPlugin` (types/deploy.ts); `target` is the `DeployTarget` tag and
`generate` receives the full accumulated output. -/
structure DeployPlugin where
  name : String
  version : String
  target : String
  priority : Option Int
  generate : GeneratedCode → GenerateOptions → Except String GeneratedCode
  getDependencies : List Dependency

/-! ### Orchestrator (src/generator.ts) -/

/-- JS `map.set(k, v)` on a string-keyed insertion-ordered map. -/
def jsMapSet {α : Type} (m : List (String × α)) (k : String) (v : α) :
    List (String × α) :=
  if m.any (fun p => p.1 == k) then
    m.map (fun p => if p.1 == k then (k, v) else p)
  else m ++ [(k, v)]

/-- One insertion step of the stable descending sort below. -/
def insertDescend {α : Type} (key : α → Int) (x : α) : List α → List α
  | [] => [x]
  | y :: ys => if key x > key y then x :: y :: ys else y :: insertDescend key x ys

/-- JS stable `sort((a, b) => (b.priority ?? 0) - (a.priority ?? 0))`: higher
priority first, ties in original order. -/
def sortByPriorityDescend {α : Type} (key : α → Int) (xs : List α) : List α :=
  xs.foldl (fun acc x => insertDescend key x acc) []

/-- The `OpenGenerator` class state (src/generator.ts): six registration maps
plus the current selections. -/
structure OpenGenerator where
  parserPlugins : List (String × ParserPlugin)
  generatorPlugins : List (String × GeneratorPlugin)
  adapterPlugins : List (String × AdapterPlugin)
  authPlugins : List (String × AuthPlugin)
  databasePlugins : List (String × DatabasePlugin)
  deployPlugins : List (String × DeployPlugin)
  selectedParser : Option ParserPlugin
  selectedGenerators : List GeneratorPlugin
  selectedAdapter : Option AdapterPlugin
  selectedAuth : List AuthPlugin
  selectedDatabase : Option DatabasePlugin
  selectedDeploy : List DeployPlugin

/-- `new OpenGenerator()`. -/
def OpenGenerator.new : OpenGenerator :=
  { parserPlugins := [], generatorPlugins := [], adapterPlugins := []
    authPlugins := [], databasePlugins := [], deployPlugins := []
    selectedParser := none, selectedGenerators := [], selectedAdapter := none
    selectedAuth := [], selectedDatabase := none, selectedDeploy := [] }

/-- `OpenGenerator.parser`: register and select a parser plugin. -/
def OpenGenerator.parser (g : OpenGenerator) (plugin : ParserPlugin) :
    OpenGenerator :=
  { g with parserPlugins := jsMapSet g.parserPlugins plugin.name plugin
           selectedParser := some plugin }

/-- `OpenGenerator.generator`: register a generator plugin, append it to the
selection and re-sort by descending priority (stable). -/
def OpenGenerator.generator (g : OpenGenerator) (plugin : GeneratorPlugin) :
    OpenGenerator :=
  { g with generatorPlugins := jsMapSet g.generatorPlugins plugin.name plugin
           selectedGenerators :=
             sortByPriorityDescend (fun p => p.priority.getD 0)
               (g.selectedGenerators ++ [plugin]) }

/-- `OpenGenerator.adapter`: register and select an adapter plugin. -/
def OpenGenerator.adapter (g : OpenGenerator) (plugin : AdapterPlugin) :
    OpenGenerator :=
  { g with adapterPlugins := jsMapSet g.adapterPlugins plugin.name plugin
           selectedAdapter := some plugin }

/-- `OpenGenerator.auth`: register an auth plugin, append it to the selection
and re-sort by descending priority (stable). -/
def OpenGenerator.auth (g : OpenGenerator) (plugin : AuthPlugin) :
    OpenGenerator :=
  { g with authPlugins := jsMapSet g.authPlugins plugin.name plugin
           selectedAuth :=
             sortByPriorityDescend (fun p => p.priority.getD 0)
               (g.selectedAuth ++ [plugin]) }

/-- `OpenGenerator.database`: register and select a database plugin. -/
def OpenGenerator.database (g : OpenGenerator) (plugin : DatabasePlugin) :
    OpenGenerator :=
  { g with databasePlugins := jsMapSet g.databasePlugins plugin.name plugin
           selectedDatabase := some plugin }

/-- `OpenGenerator.deploy`: register a deploy plugin, append it to the
selection and re-sort by descending priority (stable). -/
def OpenGenerator.deploy (g : OpenGenerator) (plugin : DeployPlugin) :
    OpenGenerator :=
  { g with deployPlugins := jsMapSet g.deployPlugins plugin.name plugin
           selectedDeploy :=
             sortByPriorityDescend (fun p => p.priority.getD 0)
               (g.selectedDeploy ++ [plugin]) }

/-- `OpenGenerator.parse` (src/generator.ts): fail when no parser is
selected, otherwise hand the input to the selected parser.  The filesystem
and URL branches of `readInput` are I/O and outside the model, so the input
is taken as inline content and `existsSync` is false (`filePath` is
undefined). -/
def OpenGenerator.parse (g : OpenGenerator) (input : String) :
    Except String SchemaIR :=
  match g.selectedParser with
  | none => .error "No parser selected. Call .parser() first."
  | some p =>
      p.parse input
        { filePath := none, basePath := none, preserveComments := none
          modelTransforms := none, fieldTransforms := none, strict := none
          custom := none }

/-- Step 1 of `OpenGenerator.generate`: fold every selected generator's output
into the accumulator with the default (last-wins) merge. -/
def runGenerators (gens : List GeneratorPlugin) (schema : SchemaIR)
    (options : GenerateOptions) : Except String GeneratedCode :=
  gens.foldlM
    (fun code gen => do
      let generated ← gen.generate schema options
      mergeGeneratedCodeDefault code generated)
    emptyGeneratedCode

/-- Step 6 of `OpenGenerator.generate` (`collectDependencies`): concatenate
the accumulated dependencies with every active plugin's declared (and peer)
dependencies, then deduplicate via `mergeDependencies`. -/
def OpenGenerator.collectDependencies (g : OpenGenerator)
    (existing : List Dependency) : List Dependency :=
  let deps := existing
  let deps := deps ++
    (match g.selectedAdapter with
     | some a => a.getDependencies ++ a.getPeerDependencies.getD []
     | none => [])
  let deps := g.selectedGenerators.foldl
    (fun ds gen => ds ++ gen.getDependencies ++ gen.getPeerDependencies.getD []) deps
  let deps := g.selectedAuth.foldl
    (fun ds auth => ds ++ auth.getDependencies ++ auth.getPeerDependencies.getD []) deps
  let deps := deps ++
    (match g.selectedDatabase with
     | some db => db.getDependencies ++ db.getPeerDependencies.getD []
     | none => [])
  let deps := g.selectedDeploy.foldl (fun ds dep => ds ++ dep.getDependencies) deps
  mergeDependencies deps []

/-- Steps 3-6 of `OpenGenerator.generate`: auth plugins, database plugin and
deploy plugins merge additively into the accumulator, then dependencies are
collected.  Step 7 (writing to disk) is I/O and outside the model. -/
def postAdapterRun (g : OpenGenerator) (options : GenerateOptions)
    (schema : SchemaIR) (code0 : GeneratedCode) : Except String GeneratedCode := do
  let code ← g.selectedAuth.foldlM
    (fun code auth => do
      let authCode ← auth.generate schema options
      mergeGeneratedCodeDefault code authCode)
    code0
  let code ← match g.selectedDatabase with
    | some db => do
        let dbCode ← db.generate schema options
        mergeGeneratedCodeDefault code dbCode
    | none => pure code
  let code ← g.selectedDeploy.foldlM
    (fun code dep => do
      let deployCode ← dep.generate code options
      mergeGeneratedCodeDefault code deployCode)
    code
  pure { code with dependencies := g.collectDependencies code.dependencies }

/-- `OpenGenerator.generate` (src/generator.ts): parse, run the generators in
priority order, pass the accumulator through the adapter (whose result
replaces it), then run the remaining additive stages. -/
def OpenGenerator.generate (g : OpenGenerator) (options : GenerateOptions) :
    Except String GeneratedCode :=
  match g.parse options.schema with
  | .error e => .error e
  | .ok schema =>
      match runGenerators g.selectedGenerators schema options with
      | .error e => .error e
      | .ok code =>
          match
            (match g.selectedAdapter with
             | some adapter => adapter.adapt code options
             | none => .ok code) with
          | .error e => .error e
          | .ok code => postAdapterRun g options schema code

/-- The record returned by `OpenGenerator.validate`. -/
structure ConfigValidation where
  valid : Bool
  errors : List String
  warnings : List String
deriving DecidableEq, Repr

/-- `OpenGenerator.validate` (src/generator.ts): a dry configuration check; a
missing parser or empty generator selection is an error, a missing adapter,
auth or database plugin is a warning. -/
def OpenGenerator.validate (g : OpenGenerator) : ConfigValidation :=
  let errors : List String := []
  let errors :=
    if g.selectedParser.isNone then errors ++ ["No parser selected"] else errors
  let errors :=
    if g.selectedGenerators.isEmpty then errors ++ ["No generators selected"]
    else errors
  let warnings : List String := []
  let warnings :=
    if g.selectedAdapter.isNone then
      warnings ++ ["No adapter selected - generated code may not be framework-specific"]
    else warnings
  let warnings :=
    if g.selectedAuth.isEmpty then
      warnings ++ ["No auth plugins selected - API will be unauthenticated"]
    else warnings
  let warnings :=
    if g.selectedDatabase.isNone then
      warnings ++ ["No database plugin selected - no database layer will be generated"]
    else warnings
  { valid := errors.isEmpty, errors := errors, warnings := warnings }

/-! ### Relation extraction (packages/parsers/prisma, `extractRelations`) -/

/-- `extractRelations` (parser-prisma): for each field carrying a relation
hint whose target model name exists among the parsed model names, materialize
one `Relation` entry; the nested push loops are the ordered flat-map below. -/
def extractRelations (models : List Model) : List Relation :=
  let modelNames := models.map Model.name
  models.flatMap (fun model =>
    model.fields.filterMap (fun field =>
      match field.relation with
      | some fr =>
          if modelNames.contains fr.model then
            some { name := fr.name.getD (model.name ++ "_" ++ field.name)
                   type := fr.type
                   from_ := { model := model.name, field := field.name }
                   to_ := { model := fr.model, field := fr.field }
                   onDelete := none, onUpdate := none, through := none }
          else none
      | none => none))

/-- `createDefaultCrudConfig` (types/schema.ts): all base operations enabled,
bulk operations and upsert disabled, count enabled. -/
def createDefaultCrudConfig : CrudConfig :=
  { create := true, read := true, update := true, delete := true, list := true
    bulkCreate := some false, bulkUpdate := some false, bulkDelete := some false
    upsert := some false, count := some true }

/-! ### Concrete plugins, schemas and outputs used by the claim theorems -/

/-- A generated file with only `path` and `content` set. -/
def mkFile (path content : String) : GeneratedFile :=
  { path := path, content := content, type := none, overwrite := none
    encoding := none, mode := none }

/-- A dependency with only `name` and `version` set. -/
def mkDep (name version : String) : Dependency :=
  { name := name, version := version, type := none, dev := none }

/-- The fixed schema returned by the stub parser below. -/
def stubSchema : SchemaIR :=
  { version := "1.0.0"
    metadata := { name := "test", description := none, source := .prisma
                  sourceVersion := none, filePath := none, generatedAt := none }
    models := [], enums := [], relations := [] }

/-- A stub parser plugin that accepts anything and returns `stubSchema`. -/
def stubParserPlugin : ParserPlugin :=
  { name := "stub", version := "1.0.0", extensions := [".stub"]
    contentTypes := none
    canParse := fun _ _ => true
    parse := fun _ _ => .ok stubSchema }

/-- Priority-10 generator: a unique file plus `common.ts` with content
"high". -/
def genHighPlugin : GeneratorPlugin :=
  { name := "gen-high", version := "1.0.0", style := "rest", priority := some 10
    generate := fun _ _ =>
      .ok { files := [mkFile "high.ts" "unique-high", mkFile "common.ts" "high"]
            dependencies := [], metadata := none }
    getDependencies := [], getPeerDependencies := none }

/-- Priority-5 generator: a unique file plus `common.ts` with content
"low". -/
def genLowPlugin : GeneratorPlugin :=
  { name := "gen-low", version := "1.0.0", style := "trpc", priority := some 5
    generate := fun _ _ =>
      .ok { files := [mkFile "low.ts" "unique-low", mkFile "common.ts" "low"]
            dependencies := [], metadata := none }
    getDependencies := [], getPeerDependencies := none }

/-- Options for the concrete `generate` runs. -/
def runOptions : GenerateOptions :=
  { output := "./out", schema := "inline-schema", write := some false
    dryRun := none }

/-- The orchestrator of the priority scenario, higher-priority generator
registered first. -/
def scenarioOrchestrator : OpenGenerator :=
  ((OpenGenerator.new.parser stubParserPlugin).generator genHighPlugin).generator
    genLowPlugin

/-- The orchestrator of the priority scenario, lower-priority generator
registered first. -/
def scenarioOrchestratorRev : OpenGenerator :=
  ((OpenGenerator.new.parser stubParserPlugin).generator genLowPlugin).generator
    genHighPlugin

/-- The content of the file at `path` in a generation result. -/
def resultFileContent (r : Except String GeneratedCode) (path : String) :
    Option String :=
  match r with
  | .ok code => (findFile code.files path).map (fun f => f.content)
  | .error _ => none

/-- A stub adapter whose output is independent of its input. -/
def adapterStubPlugin : AdapterPlugin :=
  { name := "adapter-stub", version := "1.0.0", framework := "fastify"
    priority := none
    adapt := fun _ _ =>
      .ok { files := [mkFile "server.ts" "adapted"]
            dependencies := [mkDep "fastify" "^4.18.0"], metadata := none }
    getDependencies := [mkDep "fastify" "^4.18.0"]
    getPeerDependencies := none }

/-- A model with the given name and fields and otherwise default
configuration. -/
def mkModel (name : String) (fields : List Field) : Model :=
  { name := name, description := none, tableName := none, fields := fields
    indexes := none, constraints := none, crud := createDefaultCrudConfig
    auth := none, softDelete := none, timestamps := none, meta := none }

/-- The `User.id` primary-key field. -/
def userIdField : Field :=
  Field.mk "id" (.scalar .string) none true none (some true) none none none
    none none none none none

/-- The relation hint on `Post.author` pointing at model `User`. -/
def postAuthorHint : FieldRelation :=
  { type := .manyToOne, model := "User", field := "id", foreignKey := none
    name := none }

/-- The `Post.author` field carrying the relation hint. -/
def postAuthorField : Field :=
  Field.mk "author" (.reference "User") none true none none none none
    (some postAuthorHint) none none none none none

/-- The `User` model. -/
def userModel : Model := mkModel "User" [userIdField]

/-- The `Post` model. -/
def postModel : Model := mkModel "Post" [postAuthorField]

/-- The materialized `Post.author → User.id` relation entry. -/
def postAuthorRelationEntry : Relation :=
  { name := "Post_author", type := .manyToOne
    from_ := { model := "Post", field := "author" }
    to_ := { model := "User", field := "id" }
    onDelete := none, onUpdate := none, through := none }

/-- A `GeneratedCode` with an internally duplicated file path, duplicated
dependency name and non-empty metadata. -/
def duplicatedCode : GeneratedCode :=
  { files := [mkFile "dup.ts" "one", mkFile "dup.ts" "two"]
    dependencies := [mkDep "zod" "^3.0.0", mkDep "zod" "^3.5.0"]
    metadata := some [("origin", "generator")] }

/-- A well-formed one-file, one-dependency `GeneratedCode`. -/
def simpleCode : GeneratedCode :=
  { files := [mkFile "app.ts" "body"]
    dependencies := [mkDep "zod" "^3.22.0"]
    metadata := none }

/-- The earlier `index.ts` file of the collision scenario. -/
def indexFirstFile : GeneratedFile := mkFile "index.ts" "first content"

/-- The later `index.ts` file of the collision scenario. -/
def indexSecondFile : GeneratedFile := mkFile "index.ts" "second content"

/-- The earlier `GeneratedCode` of the collision scenario. -/
def collisionCodeA : GeneratedCode :=
  { files := [indexFirstFile], dependencies := [], metadata := none }

/-- The later `GeneratedCode` of the collision scenario. -/
def collisionCodeB : GeneratedCode :=
  { files := [indexSecondFile], dependencies := [], metadata := none }

/-- An orchestrator with a parser, one generator and the stub adapter. -/
def adapterOrchestrator : OpenGenerator :=
  ((OpenGenerator.new.parser stubParserPlugin).generator genHighPlugin).adapter
    adapterStubPlugin

/-- The accumulated generator output of `adapterOrchestrator`. -/
def adapterAccum : GeneratedCode :=
  { files := [mkFile "high.ts" "unique-high", mkFile "common.ts" "high"]
    dependencies := [], metadata := none }

/-- The output of the stub adapter. -/
def adapterResult : GeneratedCode :=
  { files := [mkFile "server.ts" "adapted"]
    dependencies := [mkDep "fastify" "^4.18.0"], metadata := none }

/-- An orchestrator with only a parser selected. -/
def parserOnlyOrchestrator : OpenGenerator :=
  OpenGenerator.new.parser stubParserPlugin

/-- An orchestrator with a parser and one generator selected. -/
def parserGenOrchestrator : OpenGenerator :=
  parserOnlyOrchestrator.generator genHighPlugin

/-! ### Derived notions used in the theorem statements -/

deriving instance DecidableEq for Except

/-- The file paths of a list are pairwise distinct. -/
def PathsDistinct (fs : List GeneratedFile) : Prop :=
  fs.Pairwise (fun f g => f.path ≠ g.path)

/-- The dependency names of a list are pairwise distinct. -/
def NamesDistinct (ds : List Dependency) : Prop :=
  ds.Pairwise (fun d e => d.name ≠ e.name)

/-- The file standing at the position of `f` after a last-wins merge against
the later list `bs`: the entry of `bs` at the same path if any, else `f`. -/
def overrideBy (bs : List GeneratedFile) (f : GeneratedFile) : GeneratedFile :=
  (bs.find? (fun g => g.path == f.path)).getD f

/-- The claim's version-precedence rule, stated from its wording: the version
whose (major, minor, patch) numeric tuple (after stripping any leading range
operator) is strictly greater outranks the other; at equal tuples a release
outranks a prerelease. -/
def specOutranks (x y : String) : Bool :=
  let vx := parseSemver x
  let vy := parseSemver y
  decide ((vx.major > vy.major ∨ (vx.major = vy.major ∧ (vx.minor > vy.minor ∨
      (vx.minor = vy.minor ∧ vx.patch > vy.patch)))) ∨
    (vx.major = vy.major ∧ vx.minor = vy.minor ∧ vx.patch = vy.patch ∧
      prereleaseTruthy vx.prerelease = false ∧ prereleaseTruthy vy.prerelease = true))

/-- The source's per-collision resolution of two same-name dependency entries
(`existing` earlier, `dep` later): the `compareSemver` winner, with `dev`
forced to `false` when either entry has an explicit `dev: false`. -/
def resolveDep (existing dep : Dependency) : Dependency :=
  let w := if compareSemver dep.version existing.version > 0 then dep else existing
  if existing.dev == some false || dep.dev == some false then
    { w with dev := some false }
  else w

/-- The dependency standing at the position of `e` after merging the later
list `bs` over it: `e` resolved against the entry of `bs` sharing its name,
if any. -/
def combineBy (bs : List Dependency) (e : Dependency) : Dependency :=
  match bs.find? (fun d => d.name == e.name) with
  | some d => resolveDep e d
  | none => e

/-! ### Basic facts about the file map -/

theorem findFile_eq_none {m : List GeneratedFile} {p : String} :
    findFile m p = none ↔ ∀ f ∈ m, f.path ≠ p := by
  simp [findFile, List.find?_eq_none]

theorem findFile_isNone_iff {m : List GeneratedFile} {p : String} :
    (findFile m p).isNone = true ↔ ∀ f ∈ m, f.path ≠ p := by
  rw [Option.isNone_iff_eq_none, findFile_eq_none]

theorem setFile_fresh {m : List GeneratedFile} {f : GeneratedFile}
    (h : ∀ g ∈ m, g.path ≠ f.path) : setFile m f = m ++ [f] := by
  have hany : m.any (fun g => g.path == f.path) = false := by
    rw [List.any_eq_false]
    intro g hg
    simpa using h g hg
  simp [setFile, hany]

theorem setFile_present {m : List GeneratedFile} {f : GeneratedFile}
    (h : ∃ x ∈ m, x.path = f.path) :
    setFile m f = m.map (fun g => if g.path == f.path then f else g) := by
  have hany : m.any (fun g => g.path == f.path) = true := by
    rw [List.any_eq_true]
    obtain ⟨x, hx, he⟩ := h
    exact ⟨x, hx, by simp [he]⟩
  simp [setFile, hany]

theorem insertFile_fresh (s : FileStrategy) {m : List GeneratedFile}
    {f : GeneratedFile} (h : findFile m f.path = none) :
    insertFile s m f = .ok (m ++ [f]) := by
  simp only [insertFile, h, setFile_fresh (findFile_eq_none.mp h)]

theorem processFiles_fresh (s : FileStrategy) :
    ∀ (fs m : List GeneratedFile), PathsDistinct fs →
      (∀ f ∈ fs, ∀ g ∈ m, g.path ≠ f.path) →
      processFiles s m fs = .ok (m ++ fs) := by
  intro fs
  induction fs with
  | nil => intro m _ _; simp [processFiles]
  | cons f fs ih =>
      intro m hp hd
      obtain ⟨hhead, htail⟩ := List.pairwise_cons.mp hp
      have hnone : findFile m f.path = none :=
        findFile_eq_none.mpr (fun g hg => hd f (List.mem_cons_self f fs) g hg)
      rw [processFiles, insertFile_fresh s hnone]
      show processFiles s (m ++ [f]) fs = .ok (m ++ f :: fs)
      rw [ih (m ++ [f]) htail ?_]
      · simp
      · intro x hx g hg
        rcases List.mem_append.mp hg with hgm | hgf
        · exact hd x (List.mem_cons_of_mem f hx) g hgm
        · rcases List.mem_singleton.mp hgf with rfl
          exact hhead x hx

theorem processFiles_append_ok {s : FileStrategy} {xs : List GeneratedFile}
    {m m2 : List GeneratedFile} (h : processFiles s m xs = .ok m2)
    (ys : List GeneratedFile) :
    processFiles s m (xs ++ ys) = processFiles s m2 ys := by
  induction xs generalizing m with
  | nil =>
      simp only [processFiles] at h
      cases h
      simp
  | cons x xs ih =>
      rw [List.cons_append, processFiles]
      rw [processFiles] at h
      cases hins : insertFile s m x with
      | error e => rw [hins] at h; exact absurd h (by simp)
      | ok m3 =>
          rw [hins] at h
          show processFiles s m3 (xs ++ ys) = processFiles s m2 ys
          exact ih h

theorem insertFile_ok_of_ne_error {s : FileStrategy} (hs : s ≠ .error)
    (m : List GeneratedFile) (f : GeneratedFile) :
    ∃ r, insertFile s m f = .ok r := by
  rw [insertFile.eq_def]
  cases hfind : findFile m f.path with
  | none => exact ⟨_, rfl⟩
  | some g =>
      cases s with
      | error => exact absurd rfl hs
      | lastWins => exact ⟨_, rfl⟩
      | firstWins => exact ⟨_, rfl⟩

theorem processFiles_ok_of_ne_error {s : FileStrategy} (hs : s ≠ .error) :
    ∀ (fs m : List GeneratedFile), ∃ r, processFiles s m fs = .ok r := by
  intro fs
  induction fs with
  | nil => intro m; exact ⟨m, rfl⟩
  | cons f fs ih =>
      intro m
      obtain ⟨r, hr⟩ := insertFile_ok_of_ne_error hs m f
      obtain ⟨r2, hr2⟩ := ih r
      refine ⟨r2, ?_⟩
      rw [processFiles, hr]
      exact hr2

theorem overrideBy_path (bs : List GeneratedFile) (f : GeneratedFile) :
    (overrideBy bs f).path = f.path := by
  unfold overrideBy
  cases h : bs.find? (fun g => g.path == f.path) with
  | none => simp
  | some g =>
      have hp := List.find?_some h
      simp only [beq_iff_eq] at hp
      simp [hp]

theorem overrideBy_of_not_mem {bs : List GeneratedFile} {f : GeneratedFile}
    (h : ∀ g ∈ bs, g.path ≠ f.path) : overrideBy bs f = f := by
  unfold overrideBy
  rw [List.find?_eq_none.mpr (fun g hg => by simpa using h g hg)]
  rfl

theorem find?_path_eq_some_of_distinct {bs : List GeneratedFile}
    {fb : GeneratedFile} {p : String} (hd : PathsDistinct bs) (hm : fb ∈ bs)
    (hp : fb.path = p) : bs.find? (fun g => g.path == p) = some fb := by
  induction bs with
  | nil => cases hm
  | cons g gs ih =>
      obtain ⟨hhead, htail⟩ := List.pairwise_cons.mp hd
      rcases List.mem_cons.mp hm with rfl | hmem
      · rw [List.find?_cons_of_pos _ (by simp [hp])]
      · have hne : g.path ≠ p := by
          rw [← hp]; exact hhead fb hmem
        rw [List.find?_cons_of_neg _ (by simp [hne]), ih htail hmem]

theorem filter_path_eq_single {l : List GeneratedFile} {fa : GeneratedFile}
    {p : String} (hd : PathsDistinct l) (hm : fa ∈ l) (hp : fa.path = p) :
    l.filter (fun f => f.path == p) = [fa] := by
  induction l with
  | nil => cases hm
  | cons g gs ih =>
      obtain ⟨hhead, htail⟩ := List.pairwise_cons.mp hd
      rcases List.mem_cons.mp hm with rfl | hmem
      · rw [List.filter_cons_of_pos (by simp [hp])]
        rw [List.filter_eq_nil_iff.mpr ?_]
        intro h hh
        have := hhead h hh
        simp only [beq_iff_eq]
        rw [← hp]
        exact fun he => this he.symm
      · have hne : g.path ≠ p := by
          rw [← hp]; exact hhead fa hmem
        rw [List.filter_cons_of_neg (by simp [hne]), ih htail hmem]

theorem replace_path (f x : GeneratedFile) :
    (if x.path == f.path then f else x).path = x.path := by
  by_cases h : x.path = f.path
  · simp [h]
  · simp [h]

theorem pathsDistinct_replace {m : List GeneratedFile} (f : GeneratedFile)
    (hm : PathsDistinct m) :
    PathsDistinct (m.map (fun g => if g.path == f.path then f else g)) := by
  unfold PathsDistinct at *
  refine hm.map _ ?_
  intro a b hab
  rw [replace_path, replace_path]
  exact hab

theorem findFile_replace_isNone (m : List GeneratedFile) (f : GeneratedFile)
    (p : String) :
    (findFile (m.map (fun g => if g.path == f.path then f else g)) p).isNone =
      (findFile m p).isNone := by
  rw [Bool.eq_iff_iff, findFile_isNone_iff, findFile_isNone_iff]
  constructor
  · intro h x hx
    have := h (if x.path == f.path then f else x) (List.mem_map_of_mem _ hx)
    rwa [replace_path] at this
  · intro h y hy
    obtain ⟨x, hx, rfl⟩ := List.mem_map.mp hy
    rw [replace_path]
    exact h x hx

theorem findFile_append_single_isNone {m : List GeneratedFile}
    {g : GeneratedFile} {p : String} (hne : g.path ≠ p) :
    (findFile (m ++ [g]) p).isNone = (findFile m p).isNone := by
  rw [Bool.eq_iff_iff, findFile_isNone_iff, findFile_isNone_iff]
  constructor
  · intro h x hx
    exact h x (List.mem_append_left _ hx)
  · intro h x hx
    rcases List.mem_append.mp hx with hxm | hxg
    · exact h x hxm
    · rcases List.mem_singleton.mp hxg with rfl
      exact hne

theorem insertFile_lastWins_present {m : List GeneratedFile}
    {f : GeneratedFile} (h : ∃ x ∈ m, x.path = f.path) :
    insertFile .lastWins m f =
      .ok (m.map (fun g => if g.path == f.path then f else g)) := by
  obtain ⟨x, hx, he⟩ := h
  obtain ⟨y, hy⟩ : ∃ y, findFile m f.path = some y := by
    rw [← Option.isSome_iff_exists]
    exact List.find?_isSome.mpr ⟨x, hx, by simp [he]⟩
  simp only [insertFile, hy, setFile_present ⟨x, hx, he⟩]

theorem insertFile_firstWins_present {m : List GeneratedFile}
    {f : GeneratedFile} (h : ∃ x ∈ m, x.path = f.path) :
    insertFile .firstWins m f = .ok m := by
  obtain ⟨x, hx, he⟩ := h
  obtain ⟨y, hy⟩ : ∃ y, findFile m f.path = some y := by
    rw [← Option.isSome_iff_exists]
    exact List.find?_isSome.mpr ⟨x, hx, by simp [he]⟩
  simp only [insertFile, hy]

theorem insertFile_error_present {m : List GeneratedFile} {f : GeneratedFile}
    (h : ∃ x ∈ m, x.path = f.path) :
    insertFile .error m f =
      .error ("File conflict: " ++ f.path ++ " is generated by multiple plugins") := by
  obtain ⟨x, hx, he⟩ := h
  obtain ⟨y, hy⟩ : ∃ y, findFile m f.path = some y := by
    rw [← Option.isSome_iff_exists]
    exact List.find?_isSome.mpr ⟨x, hx, by simp [he]⟩
  simp only [insertFile, hy]

theorem findFile_isNone_false {m : List GeneratedFile} {p : String}
    (h : ∃ x ∈ m, x.path = p) : (findFile m p).isNone = false := by
  obtain ⟨x, hx, he⟩ := h
  obtain ⟨y, hy⟩ : ∃ y, findFile m p = some y := by
    rw [← Option.isSome_iff_exists]
    exact List.find?_isSome.mpr ⟨x, hx, by simp [he]⟩
  rw [hy]
  rfl

theorem processFiles_lastWins :
    ∀ (bs m : List GeneratedFile), PathsDistinct m → PathsDistinct bs →
      processFiles .lastWins m bs =
        .ok (m.map (overrideBy bs) ++
          bs.filter (fun g => (findFile m g.path).isNone)) := by
  intro bs
  induction bs with
  | nil =>
      intro m _ _
      have hid : m.map (overrideBy []) = m := by
        calc m.map (overrideBy [])
            = m.map id :=
              List.map_congr_left (fun x _ =>
                overrideBy_of_not_mem (fun g hg => absurd hg (List.not_mem_nil g)))
          _ = m := m.map_id
      simp [processFiles, hid]
  | cons g gs ih =>
      intro m hm hbs
      obtain ⟨hhead, htail⟩ := List.pairwise_cons.mp hbs
      by_cases hc : ∃ x ∈ m, x.path = g.path
      · rw [processFiles, insertFile_lastWins_present hc]
        show processFiles .lastWins
          (m.map (fun x => if x.path == g.path then g else x)) gs = _
        rw [ih _ (pathsDistinct_replace g hm) htail]
        rw [List.filter_cons_of_neg (by simp [findFile_isNone_false hc])]
        have hmapeq2 :
            (m.map (fun x => if x.path == g.path then g else x)).map (overrideBy gs) =
              m.map (overrideBy (g :: gs)) := by
          rw [List.map_map]
          apply List.map_congr_left
          intro x hx
          show overrideBy gs (if x.path == g.path then g else x) =
            overrideBy (g :: gs) x
          by_cases hxg : x.path = g.path
          · have hrep : (if x.path == g.path then g else x) = g := by simp [hxg]
            rw [hrep,
              overrideBy_of_not_mem (fun h hh => Ne.symm (hhead h hh))]
            unfold overrideBy
            rw [List.find?_cons_of_pos _ (by simp [hxg])]
            rfl
          · have hrep : (if x.path == g.path then g else x) = x := by simp [hxg]
            rw [hrep]
            unfold overrideBy
            rw [List.find?_cons_of_neg _ (by
              simp only [beq_iff_eq]
              exact fun he => hxg he.symm)]
        have hfeq2 :
            gs.filter (fun h =>
              (findFile (m.map (fun x => if x.path == g.path then g else x))
                h.path).isNone) =
              gs.filter (fun h => (findFile m h.path).isNone) :=
          List.filter_congr (fun h _ => findFile_replace_isNone m g h.path)
        rw [hmapeq2, hfeq2]
      · have hnone : findFile m g.path = none :=
          findFile_eq_none.mpr (fun x hx he => hc ⟨x, hx, he⟩)
        rw [processFiles, insertFile_fresh _ hnone]
        show processFiles .lastWins (m ++ [g]) gs = _
        have hmg : PathsDistinct (m ++ [g]) := by
          unfold PathsDistinct at *
          rw [List.pairwise_append]
          refine ⟨hm, List.pairwise_singleton _ _, ?_⟩
          intro a ha b hb
          rcases List.mem_singleton.mp hb with rfl
          exact fun he => hc ⟨a, ha, he⟩
        rw [ih _ hmg htail]
        rw [List.filter_cons_of_pos (by simp [hnone])]
        rw [List.map_append]
        have hover : overrideBy gs g = g :=
          overrideBy_of_not_mem (fun h hh => Ne.symm (hhead h hh))
        have hmapeq : m.map (overrideBy gs) = m.map (overrideBy (g :: gs)) := by
          apply List.map_congr_left
          intro x hx
          unfold overrideBy
          rw [List.find?_cons_of_neg _ (by
            simp only [beq_iff_eq]
            exact fun he => hc ⟨x, hx, he.symm⟩)]
        have hfeq : gs.filter (fun h => (findFile (m ++ [g]) h.path).isNone) =
            gs.filter (fun h => (findFile m h.path).isNone) :=
          List.filter_congr (fun h hh => findFile_append_single_isNone (hhead h hh))
        rw [hfeq, hmapeq]
        simp [hover, List.append_assoc]

theorem processFiles_firstWins :
    ∀ (bs m : List GeneratedFile), PathsDistinct bs →
      processFiles .firstWins m bs =
        .ok (m ++ bs.filter (fun g => (findFile m g.path).isNone)) := by
  intro bs
  induction bs with
  | nil => intro m _; simp [processFiles]
  | cons g gs ih =>
      intro m hbs
      obtain ⟨hhead, htail⟩ := List.pairwise_cons.mp hbs
      by_cases hc : ∃ x ∈ m, x.path = g.path
      · rw [processFiles, insertFile_firstWins_present hc]
        show processFiles .firstWins m gs = _
        rw [ih m htail]
        rw [List.filter_cons_of_neg (by simp [findFile_isNone_false hc])]
      · have hnone : findFile m g.path = none :=
          findFile_eq_none.mpr (fun x hx he => hc ⟨x, hx, he⟩)
        rw [processFiles, insertFile_fresh _ hnone]
        show processFiles .firstWins (m ++ [g]) gs = _
        rw [ih _ htail]
        rw [List.filter_cons_of_pos (by simp [hnone])]
        have hfeq : gs.filter (fun h => (findFile (m ++ [g]) h.path).isNone) =
            gs.filter (fun h => (findFile m h.path).isNone) :=
          List.filter_congr (fun h hh => findFile_append_single_isNone (hhead h hh))
        rw [hfeq]
        simp [List.append_assoc]

theorem processFiles_error_conflict :
    ∀ (bs m : List GeneratedFile) (p : String), PathsDistinct bs →
      (∀ h ∈ bs, (∃ x ∈ m, x.path = h.path) → h.path = p) →
      (∃ h ∈ bs, h.path = p) → (∃ x ∈ m, x.path = p) →
      processFiles .error m bs =
        .error ("File conflict: " ++ p ++ " is generated by multiple plugins") := by
  intro bs
  induction bs with
  | nil =>
      intro m p _ _ hex _
      obtain ⟨h0, hh0, _⟩ := hex
      cases hh0
  | cons g gs ih =>
      intro m p hbs hcol hex hm
      obtain ⟨hhead, htail⟩ := List.pairwise_cons.mp hbs
      by_cases hg : ∃ x ∈ m, x.path = g.path
      · have hgp : g.path = p := hcol g (List.mem_cons_self g gs) hg
        rw [processFiles, insertFile_error_present hg, hgp]
      · have hnone : findFile m g.path = none :=
          findFile_eq_none.mpr (fun x hx he => hg ⟨x, hx, he⟩)
        have hgnep : g.path ≠ p := by
          intro he
          obtain ⟨x, hx, hxp⟩ := hm
          exact hg ⟨x, hx, by rw [hxp, he]⟩
        rw [processFiles, insertFile_fresh _ hnone]
        show processFiles .error (m ++ [g]) gs = _
        apply ih (m ++ [g]) p htail
        · intro h hh hhx
          obtain ⟨x, hx, hxp⟩ := hhx
          rcases List.mem_append.mp hx with hxm | hxg
          · exact hcol h (List.mem_cons_of_mem g hh) ⟨x, hxm, hxp⟩
          · rcases List.mem_singleton.mp hxg with rfl
            exact absurd hxp (hhead h hh)
        · obtain ⟨h0, hh0, hp0⟩ := hex
          rcases List.mem_cons.mp hh0 with rfl | hmem
          · exact absurd hp0 hgnep
          · exact ⟨h0, hmem, hp0⟩
        · obtain ⟨x, hx, hxp⟩ := hm
          exact ⟨x, List.mem_append_left _ hx, hxp⟩

/-! ### Basic facts about the dependency map -/

theorem findDep_eq_none {m : List Dependency} {n : String} :
    findDep m n = none ↔ ∀ d ∈ m, d.name ≠ n := by
  simp [findDep, List.find?_eq_none]

theorem setDep_fresh {m : List Dependency} {d : Dependency}
    (h : ∀ e ∈ m, e.name ≠ d.name) : setDep m d = m ++ [d] := by
  have hany : m.any (fun e => e.name == d.name) = false := by
    rw [List.any_eq_false]
    intro e he
    simpa using h e he
  simp [setDep, hany]

theorem insertDep_fresh {m : List Dependency} {d : Dependency}
    (h : findDep m d.name = none) : insertDep m d = m ++ [d] := by
  simp only [insertDep, h, setDep_fresh (findDep_eq_none.mp h)]

theorem foldl_insertDep_fresh :
    ∀ (ds m : List Dependency), NamesDistinct ds →
      (∀ d ∈ ds, ∀ e ∈ m, e.name ≠ d.name) →
      ds.foldl insertDep m = m ++ ds := by
  intro ds
  induction ds with
  | nil => intro m _ _; simp
  | cons d ds ih =>
      intro m hp hd
      obtain ⟨hhead, htail⟩ := List.pairwise_cons.mp hp
      have hnone : findDep m d.name = none :=
        findDep_eq_none.mpr (fun e he => hd d (List.mem_cons_self d ds) e he)
      rw [List.foldl_cons, insertDep_fresh hnone, ih (m ++ [d]) htail ?_]
      · simp
      · intro x hx e he
        rcases List.mem_append.mp he with hem | hef
        · exact hd x (List.mem_cons_of_mem d hx) e hem
        · rcases List.mem_singleton.mp hef with rfl
          exact hhead x hx

theorem mergeDependencies_nil_right {ds : List Dependency}
    (h : NamesDistinct ds) : mergeDependencies ds [] = ds := by
  unfold mergeDependencies
  rw [List.append_nil,
    foldl_insertDep_fresh ds [] h (fun d _ e he => absurd he (List.not_mem_nil e))]
  simp

theorem mergeDependencies_pair (da db : Dependency) (h : da.name = db.name) :
    mergeDependencies [da] [db] =
      [ if da.dev == some false || db.dev == some false
        then { (if compareSemver db.version da.version > 0 then db else da) with
                dev := some false }
        else (if compareSemver db.version da.version > 0 then db else da) ] := by
  have hins1 : insertDep [] da = [da] := insertDep_fresh (by simp [findDep])
  have hfind : findDep [da] db.name = some da := by
    unfold findDep
    rw [List.find?_cons_of_pos _ (by simp [h])]
  have hset : setDep [da] db = [db] := by
    unfold setDep
    rw [if_pos (by simp [h])]
    simp [h]
  have hmain : mergeDependencies [da] [db] = insertDep [da] db := by
    unfold mergeDependencies
    rw [show [da] ++ [db] = [da, db] from rfl, List.foldl_cons, List.foldl_cons,
      List.foldl_nil, hins1]
  rw [hmain]
  simp only [insertDep, hfind]
  by_cases hcmp : compareSemver db.version da.version > 0
  · by_cases hdev : (da.dev == some false || db.dev == some false) = true
    · have hfind2 : findDep [db] db.name = some db := by
        unfold findDep
        rw [List.find?_cons_of_pos _ (by simp)]
      have hset2 : setDep [db] { db with dev := some false } =
          [{ db with dev := some false }] := by
        unfold setDep
        rw [if_pos (by simp)]
        simp
      simp [hcmp, hdev, hset, hfind2, hset2]
    · simp [hcmp, hdev, hset]
  · by_cases hdev : (da.dev == some false || db.dev == some false) = true
    · have hset3 : setDep [da] { da with dev := some false } =
          [{ da with dev := some false }] := by
        unfold setDep
        rw [if_pos (by simp)]
        simp
      simp [hcmp, hdev, hfind, hset3]
    · simp [hcmp, hdev]

/-! ### The comparison's sign matches the claim's precedence rule -/

theorem compareSemver_pos_iff (x y : String) :
    compareSemver x y > 0 ↔ specOutranks x y = true := by
  unfold compareSemver specOutranks
  simp only [decide_eq_true_eq]
  set vx := parseSemver x
  set vy := parseSemver y
  set a := prereleaseTruthy vx.prerelease with ha
  set b := prereleaseTruthy vy.prerelease with hb
  cases a <;> cases b <;>
    split_ifs with h1 h2 h3 h4 h5 h6 <;>
      simp_all [bne_iff_ne]

/-! ### The dependency merge over arbitrary lists -/

theorem resolveDep_name {e dep : Dependency} (h : e.name = dep.name) :
    (resolveDep e dep).name = dep.name := by
  unfold resolveDep
  by_cases hcmp : compareSemver dep.version e.version > 0 <;>
    by_cases hdev : (e.dev == some false || dep.dev == some false) = true <;>
      simp [hcmp, hdev, h]

theorem combineBy_name (bs : List Dependency) (e : Dependency) :
    (combineBy bs e).name = e.name := by
  unfold combineBy
  cases h : bs.find? (fun d => d.name == e.name) with
  | none => rfl
  | some d =>
      have hd := List.find?_some h
      simp only [beq_iff_eq] at hd
      rw [resolveDep_name hd.symm, hd]

theorem eq_of_namesDistinct {m : List Dependency} {x e : Dependency}
    (hd : NamesDistinct m) (hx : x ∈ m) (he : e ∈ m) (hn : x.name = e.name) :
    x = e := by
  induction m with
  | nil => cases hx
  | cons d t ih =>
      obtain ⟨hhead, htail⟩ := List.pairwise_cons.mp hd
      rcases List.mem_cons.mp hx with rfl | hxt
      · rcases List.mem_cons.mp he with rfl | het
        · rfl
        · exact absurd hn (hhead e het)
      · rcases List.mem_cons.mp he with rfl | het
        · exact absurd hn.symm (hhead x hxt)
        · exact ih htail hxt het

theorem findDep_isNone_iff {m : List Dependency} {n : String} :
    (findDep m n).isNone = true ↔ ∀ d ∈ m, d.name ≠ n := by
  rw [Option.isNone_iff_eq_none, findDep_eq_none]

theorem findDep_isNone_false {m : List Dependency} {n : String}
    (h : ∃ x ∈ m, x.name = n) : (findDep m n).isNone = false := by
  obtain ⟨x, hx, he⟩ := h
  obtain ⟨y, hy⟩ : ∃ y, findDep m n = some y := by
    rw [← Option.isSome_iff_exists]
    exact List.find?_isSome.mpr ⟨x, hx, by simp [he]⟩
  rw [hy]
  rfl

theorem find?_name_eq_some_of_distinct {m : List Dependency} {e : Dependency}
    {n : String} (hd : NamesDistinct m) (hm : e ∈ m) (hn : e.name = n) :
    m.find? (fun d => d.name == n) = some e := by
  induction m with
  | nil => cases hm
  | cons g gs ih =>
      obtain ⟨hhead, htail⟩ := List.pairwise_cons.mp hd
      rcases List.mem_cons.mp hm with rfl | hmem
      · rw [List.find?_cons_of_pos _ (by simp [hn])]
      · have hne : g.name ≠ n := by
          rw [← hn]; exact hhead e hmem
        rw [List.find?_cons_of_neg _ (by simp [hne]), ih htail hmem]

theorem filter_name_eq_single {l : List Dependency} {e : Dependency}
    {n : String} (hd : NamesDistinct l) (hm : e ∈ l) (hn : e.name = n) :
    l.filter (fun d => d.name == n) = [e] := by
  induction l with
  | nil => cases hm
  | cons g gs ih =>
      obtain ⟨hhead, htail⟩ := List.pairwise_cons.mp hd
      rcases List.mem_cons.mp hm with rfl | hmem
      · rw [List.filter_cons_of_pos (by simp [hn])]
        rw [List.filter_eq_nil_iff.mpr ?_]
        intro h hh
        have := hhead h hh
        simp only [beq_iff_eq]
        rw [← hn]
        exact fun he => this he.symm
      · have hne : g.name ≠ n := by
          rw [← hn]; exact hhead e hmem
        rw [List.filter_cons_of_neg (by simp [hne]), ih htail hmem]

theorem replaceDep_name {r : Dependency} {n : String} (hr : r.name = n)
    (x : Dependency) : (if x.name == n then r else x).name = x.name := by
  by_cases h : x.name = n
  · simp [h, hr]
  · simp [h]

theorem namesDistinct_replace {m : List Dependency} {r : Dependency}
    {n : String} (hr : r.name = n) (hm : NamesDistinct m) :
    NamesDistinct (m.map (fun x => if x.name == n then r else x)) := by
  unfold NamesDistinct at *
  refine hm.map _ ?_
  intro a b hab
  rw [replaceDep_name hr, replaceDep_name hr]
  exact hab

theorem findDep_replace_isNone {r : Dependency} {n : String} (hr : r.name = n)
    (m : List Dependency) (p : String) :
    (findDep (m.map (fun x => if x.name == n then r else x)) p).isNone =
      (findDep m p).isNone := by
  rw [Bool.eq_iff_iff, findDep_isNone_iff, findDep_isNone_iff]
  constructor
  · intro h x hx
    have := h (if x.name == n then r else x) (List.mem_map_of_mem _ hx)
    rwa [replaceDep_name hr] at this
  · intro h y hy
    obtain ⟨x, hx, rfl⟩ := List.mem_map.mp hy
    rw [replaceDep_name hr]
    exact h x hx

theorem findDep_append_single_isNone {m : List Dependency} {d : Dependency}
    {p : String} (hne : d.name ≠ p) :
    (findDep (m ++ [d]) p).isNone = (findDep m p).isNone := by
  rw [Bool.eq_iff_iff, findDep_isNone_iff, findDep_isNone_iff]
  constructor
  · intro h x hx
    exact h x (List.mem_append_left _ hx)
  · intro h x hx
    rcases List.mem_append.mp hx with hxm | hxd
    · exact h x hxm
    · rcases List.mem_singleton.mp hxd with rfl
      exact hne

theorem setDep_present {m : List Dependency} {d : Dependency}
    (h : ∃ x ∈ m, x.name = d.name) :
    setDep m d = m.map (fun x => if x.name == d.name then d else x) := by
  have hany : m.any (fun e => e.name == d.name) = true := by
    rw [List.any_eq_true]
    obtain ⟨x, hx, he⟩ := h
    exact ⟨x, hx, by simp [he]⟩
  simp [setDep, hany]

theorem insertDep_present {m : List Dependency} {e dep : Dependency}
    (hd : NamesDistinct m) (he : e ∈ m) (hn : e.name = dep.name) :
    insertDep m dep =
      m.map (fun x => if x.name == dep.name then resolveDep e dep else x) := by
  have hfind : findDep m dep.name = some e := by
    unfold findDep
    exact find?_name_eq_some_of_distinct hd he hn
  have hsetm : setDep m dep =
      m.map (fun x => if x.name == dep.name then dep else x) :=
    setDep_present ⟨e, he, hn⟩
  simp only [insertDep, hfind]
  by_cases hcmp : compareSemver dep.version e.version > 0
  · have hm2 : NamesDistinct (m.map (fun x => if x.name == dep.name then dep else x)) :=
      namesDistinct_replace rfl hd
    have hmem2 : dep ∈ m.map (fun x => if x.name == dep.name then dep else x) :=
      List.mem_map.mpr ⟨e, he, by simp [hn]⟩
    by_cases hdev : (e.dev == some false || dep.dev == some false) = true
    · have hresolve : resolveDep e dep = { dep with dev := some false } := by
        simp [resolveDep, hcmp, hdev]
      have hfind2 : findDep
          (m.map (fun x => if x.name == dep.name then dep else x)) dep.name =
            some dep := by
        unfold findDep
        exact find?_name_eq_some_of_distinct hm2 hmem2 rfl
      have hset2 : setDep
          (m.map (fun x => if x.name == dep.name then dep else x))
          { dep with dev := some false } =
            (m.map (fun x => if x.name == dep.name then dep else x)).map
              (fun x => if x.name == dep.name then { dep with dev := some false }
                else x) := by
        have := setDep_present
          (m := m.map (fun x => if x.name == dep.name then dep else x))
          (d := { dep with dev := some false }) ⟨dep, hmem2, rfl⟩
        simpa using this
      simp only [hcmp, if_true, hsetm, hdev, hfind2, hset2, hresolve]
      rw [List.map_map]
      apply List.map_congr_left
      intro x _
      by_cases hx2 : x.name = dep.name <;> simp [hx2]
    · have hresolve : resolveDep e dep = dep := by
        simp [resolveDep, hcmp, hdev]
      simp only [hcmp, if_true, hsetm, hdev, Bool.false_eq_true, if_false,
        hresolve]
  · by_cases hdev : (e.dev == some false || dep.dev == some false) = true
    · have hresolve : resolveDep e dep = { e with dev := some false } := by
        simp [resolveDep, hcmp, hdev]
      have hsetE : setDep m { e with dev := some false } =
          m.map (fun x => if x.name == dep.name then { e with dev := some false }
            else x) := by
        have := setDep_present (m := m)
          (d := { e with dev := some false }) ⟨e, he, rfl⟩
        simpa [hn] using this
      simp only [hcmp, if_false, hdev, if_true, hfind, hsetE, hresolve]
    · have hresolve : resolveDep e dep = e := by
        simp [resolveDep, hcmp, hdev]
      simp only [hcmp, if_false, hdev, hresolve]
      calc m = m.map id := (m.map_id).symm
        _ = m.map (fun x => if x.name == dep.name then e else x) := by
            apply List.map_congr_left
            intro x hx
            by_cases hx2 : x.name = dep.name
            · have hxe : x = e :=
                eq_of_namesDistinct hd hx he (by rw [hx2, ← hn])
              simp [hx2, hxe]
            · simp [hx2]

theorem foldl_insertDep_combine :
    ∀ (bs m : List Dependency), NamesDistinct m → NamesDistinct bs →
      bs.foldl insertDep m =
        m.map (combineBy bs) ++
          bs.filter (fun d => (findDep m d.name).isNone) := by
  intro bs
  induction bs with
  | nil =>
      intro m _ _
      have hid : m.map (combineBy []) = m := by
        calc m.map (combineBy [])
            = m.map id := List.map_congr_left (fun x _ => by simp [combineBy])
          _ = m := m.map_id
      simp [hid]
  | cons d ds ih =>
      intro m hm hbs
      obtain ⟨hhead, htail⟩ := List.pairwise_cons.mp hbs
      rw [List.foldl_cons]
      by_cases hc : ∃ x ∈ m, x.name = d.name
      · obtain ⟨e, hemem, hen⟩ := hc
        rw [insertDep_present hm hemem hen]
        have hm2 : NamesDistinct
            (m.map (fun x => if x.name == d.name then resolveDep e d else x)) :=
          namesDistinct_replace (resolveDep_name hen) hm
        rw [ih _ hm2 htail]
        rw [List.filter_cons_of_neg
          (by simp [findDep_isNone_false ⟨e, hemem, hen⟩])]
        have hmap :
            (m.map (fun x => if x.name == d.name then resolveDep e d else x)).map
              (combineBy ds) = m.map (combineBy (d :: ds)) := by
          rw [List.map_map]
          apply List.map_congr_left
          intro x hx
          show combineBy ds (if x.name == d.name then resolveDep e d else x) =
            combineBy (d :: ds) x
          by_cases hxd : x.name = d.name
          · have hxe : x = e :=
              eq_of_namesDistinct hm hx hemem (by rw [hxd, ← hen])
            subst hxe
            have h1 : (if x.name == d.name then resolveDep x d else x) =
                resolveDep x d := by simp [hxd]
            rw [h1]
            have h2 : combineBy ds (resolveDep x d) = resolveDep x d := by
              unfold combineBy
              rw [resolveDep_name hxd]
              rw [List.find?_eq_none.mpr (fun y hy => by
                simpa using Ne.symm (hhead y hy))]
            rw [h2]
            unfold combineBy
            rw [List.find?_cons_of_pos _ (by simp [hxd])]
          · have h1 : (if x.name == d.name then resolveDep e d else x) = x := by
              simp [hxd]
            rw [h1]
            unfold combineBy
            rw [List.find?_cons_of_neg _ (by
              simp only [beq_iff_eq]
              exact fun hh => hxd hh.symm)]
        have hfilter :
            ds.filter (fun dd => (findDep
              (m.map (fun x => if x.name == d.name then resolveDep e d else x))
                dd.name).isNone) =
              ds.filter (fun dd => (findDep m dd.name).isNone) :=
          List.filter_congr
            (fun dd _ => findDep_replace_isNone (resolveDep_name hen) m dd.name)
        rw [hmap, hfilter]
      · have hnone : findDep m d.name = none :=
          findDep_eq_none.mpr (fun x hx hxe => hc ⟨x, hx, hxe⟩)
        rw [insertDep_fresh hnone]
        have hmd : NamesDistinct (m ++ [d]) := by
          unfold NamesDistinct at *
          rw [List.pairwise_append]
          refine ⟨hm, List.pairwise_singleton _ _, ?_⟩
          intro a ha b hb
          rcases List.mem_singleton.mp hb with rfl
          exact fun he => hc ⟨a, ha, he⟩
        rw [ih _ hmd htail]
        rw [List.filter_cons_of_pos (by simp [hnone])]
        rw [List.map_append]
        have hcomb : combineBy ds d = d := by
          unfold combineBy
          rw [List.find?_eq_none.mpr (fun y hy => by
            simpa using Ne.symm (hhead y hy))]
        have hmapeq : m.map (combineBy ds) = m.map (combineBy (d :: ds)) := by
          apply List.map_congr_left
          intro x hx
          unfold combineBy
          rw [List.find?_cons_of_neg _ (by
            simp only [beq_iff_eq]
            exact fun hh => hc ⟨x, hx, hh.symm⟩)]
        have hfeq : ds.filter
            (fun dd => (findDep (m ++ [d]) dd.name).isNone) =
              ds.filter (fun dd => (findDep m dd.name).isNone) :=
          List.filter_congr
            (fun dd hdd => findDep_append_single_isNone (hhead dd hdd))
        rw [hfeq, hmapeq]
        simp [hcomb, List.append_assoc]

/-! ### The claims -/

/-- C1 (counterexample): in the two-generator priority scenario (priority 10
emitting `common.ts` with "high", priority 5 emitting it with "low"), the
orchestrator's generate does NOT leave "high" at `common.ts`: generators run
in descending priority order, so the priority-5 output is merged later and
wins under the default last-wins strategy. -/
theorem claim_C1_counterexample :
    resultFileContent (scenarioOrchestrator.generate runOptions) "common.ts" ≠
      some "high" ∧
    resultFileContent (scenarioOrchestrator.generate runOptions) "common.ts" =
      some "low" := by
  decide

/-- C1 (amended): in the two-generator priority scenario, under either
registration order, `generate` returns an output whose file at `common.ts`
has content "low" — the LOWER-priority generator's output wins at shared
paths, because the higher-priority generator runs first and is merged
earlier, and the default last-wins merge favors the most recently merged
output; both generators' unique files are present. -/
theorem claim_C1_amended :
    resultFileContent (scenarioOrchestrator.generate runOptions) "common.ts" =
      some "low" ∧
    resultFileContent (scenarioOrchestratorRev.generate runOptions) "common.ts" =
      some "low" ∧
    resultFileContent (scenarioOrchestrator.generate runOptions) "high.ts" =
      some "unique-high" ∧
    resultFileContent (scenarioOrchestrator.generate runOptions) "low.ts" =
      some "unique-low" ∧
    resultFileContent (scenarioOrchestratorRev.generate runOptions) "high.ts" =
      some "unique-high" ∧
    resultFileContent (scenarioOrchestratorRev.generate runOptions) "low.ts" =
      some "unique-low" := by
  decide

/-- C2 (counterexample): merging a `GeneratedCode` with an empty one is NOT
the identity in general: duplicate file paths within the input are collapsed,
duplicate dependency names are resolved, and the `metadata` field is dropped
by the merge. -/
theorem claim_C2_counterexample :
    mergeGeneratedCode duplicatedCode emptyGeneratedCode .lastWins ≠
      .ok duplicatedCode ∧
    mergeGeneratedCode duplicatedCode emptyGeneratedCode .firstWins ≠
      .ok duplicatedCode ∧
    mergeGeneratedCode duplicatedCode emptyGeneratedCode .lastWins =
      .ok { files := [mkFile "dup.ts" "two"]
            dependencies := [mkDep "zod" "^3.5.0"], metadata := none } ∧
    mergeGeneratedCode duplicatedCode emptyGeneratedCode .firstWins =
      .ok { files := [mkFile "dup.ts" "one"]
            dependencies := [mkDep "zod" "^3.5.0"], metadata := none } := by
  decide

/-- C2 (amended): for every `GeneratedCode` whose file paths are pairwise
distinct and whose dependency names are pairwise distinct, merging it with an
empty `GeneratedCode` under last-wins or first-wins preserves the files and
dependencies unchanged and in order; the `metadata` field is not preserved —
the merge result always carries no metadata. -/
theorem claim_C2_amended (a : GeneratedCode) (hf : PathsDistinct a.files)
    (hd : NamesDistinct a.dependencies) :
    mergeGeneratedCode a emptyGeneratedCode .lastWins =
      .ok { files := a.files, dependencies := a.dependencies, metadata := none } ∧
    mergeGeneratedCode a emptyGeneratedCode .firstWins =
      .ok { files := a.files, dependencies := a.dependencies, metadata := none } := by
  have hfiles : ∀ s : FileStrategy,
      processFiles s [] (a.files ++ emptyGeneratedCode.files) = .ok a.files := by
    intro s
    show processFiles s [] (a.files ++ []) = _
    rw [List.append_nil]
    have := processFiles_fresh s a.files [] hf
      (fun f _ g hg => absurd hg (List.not_mem_nil g))
    simpa using this
  have hdeps :
      mergeDependencies a.dependencies emptyGeneratedCode.dependencies =
        a.dependencies := by
    show mergeDependencies a.dependencies [] = _
    exact mergeDependencies_nil_right hd
  refine ⟨?_, ?_⟩ <;> simp [mergeGeneratedCode, hfiles, hdeps]

/-- C2 (witness): the amended statement at a concrete well-formed value. -/
theorem claim_C2_witness :
    mergeGeneratedCode simpleCode emptyGeneratedCode .lastWins =
      .ok { files := simpleCode.files, dependencies := simpleCode.dependencies
            metadata := none } ∧
    mergeGeneratedCode simpleCode emptyGeneratedCode .firstWins =
      .ok { files := simpleCode.files, dependencies := simpleCode.dependencies
            metadata := none } :=
  claim_C2_amended simpleCode (by simp [PathsDistinct, simpleCode])
    (by simp [NamesDistinct, simpleCode])

/-- C3 (counterexample): the winning entry of the dependency merge is NOT
always kept verbatim: when the losing entry carries an explicit `dev: false`,
the winner's `dev` flag is rewritten to `false`. -/
theorem claim_C3_counterexample :
    mergeDependencies
        [{ name := "pkg", version := "^1.0.0", type := none, dev := some false }]
        [{ name := "pkg", version := "^2.0.0", type := none, dev := some true }] =
      [{ name := "pkg", version := "^2.0.0", type := none, dev := some false }] ∧
    mergeDependencies
        [{ name := "pkg", version := "^1.0.0", type := none, dev := some false }]
        [{ name := "pkg", version := "^2.0.0", type := none, dev := some true }] ≠
      [{ name := "pkg", version := "^2.0.0", type := none, dev := some true }] := by
  decide

/-- C3 (amended): for every two dependency lists (each with internally
distinct package names, which makes "the entry with that name" well-defined),
when the same package name appears in both, the merged list contains exactly
one entry at that name, selected by the claim's precedence rule
(`specOutranks`: strictly greater numeric (major, minor, patch) tuple after
stripping the range operator wins; at equal tuples a release outranks a
prerelease; otherwise the existing, earlier entry is kept), and the selected
entry is kept verbatim — range-operator prefix included — except that its
`dev` flag becomes `false` when either entry has an explicit `dev: false`.
The same resolution stated as a full-list equation for singleton lists, and
the claim's concrete examples, also hold. -/
theorem claim_C3_amended :
    (∀ (a b : List Dependency) (n : String) (da db : Dependency),
      NamesDistinct a → NamesDistinct b →
      da ∈ a → da.name = n → db ∈ b → db.name = n →
      (mergeDependencies a b).filter (fun d => d.name == n) =
        [ if da.dev == some false || db.dev == some false
          then { (if specOutranks db.version da.version then db else da) with
                  dev := some false }
          else (if specOutranks db.version da.version then db else da) ]) ∧
    (∀ da db : Dependency, da.name = db.name →
      mergeDependencies [da] [db] =
        [ if da.dev == some false || db.dev == some false
          then { (if specOutranks db.version da.version then db else da) with
                  dev := some false }
          else (if specOutranks db.version da.version then db else da) ]) ∧
    mergeDependencies [mkDep "lodash" "^3.0.0"] [mkDep "lodash" "^4.0.0"] =
      [mkDep "lodash" "^4.0.0"] ∧
    mergeDependencies [mkDep "pkg" "^1.0.0-beta.1"] [mkDep "pkg" "^1.0.0"] =
      [mkDep "pkg" "^1.0.0"] ∧
    mergeDependencies [mkDep "pkg" "^1.0.0"] [mkDep "pkg" "^1.0.0-beta.1"] =
      [mkDep "pkg" "^1.0.0"] := by
  have hspec : ∀ da db : Dependency, resolveDep da db =
      (if da.dev == some false || db.dev == some false
       then { (if specOutranks db.version da.version then db else da) with
               dev := some false }
       else (if specOutranks db.version da.version then db else da)) := by
    intro da db
    unfold resolveDep
    by_cases hcmp : compareSemver db.version da.version > 0
    · have hs : specOutranks db.version da.version = true :=
        (compareSemver_pos_iff _ _).mp hcmp
      simp [hcmp, hs]
    · have hs : specOutranks db.version da.version = false := by
        cases hso : specOutranks db.version da.version
        · rfl
        · exact absurd ((compareSemver_pos_iff _ _).mpr hso) hcmp
      simp [hcmp, hs]
  refine ⟨?_, ?_, by decide, by decide, by decide⟩
  · intro a b n da db hda hdb hma hna hmb hnb
    have ha0 : a.foldl insertDep [] = a := by
      simpa using foldl_insertDep_fresh a [] hda
        (fun d _ e he => absurd he (List.not_mem_nil e))
    have hfold : mergeDependencies a b = b.foldl insertDep a := by
      unfold mergeDependencies
      rw [List.foldl_append, ha0]
    rw [hfold, foldl_insertDep_combine b a hda hdb, List.filter_append]
    have hsecond : (b.filter (fun d => (findDep a d.name).isNone)).filter
        (fun d => d.name == n) = [] := by
      rw [List.filter_eq_nil_iff]
      intro x hx
      obtain ⟨hxmem, hxpred⟩ := List.mem_filter.mp hx
      simp only [beq_iff_eq]
      intro he
      rw [he, findDep_isNone_false ⟨da, hma, hna⟩] at hxpred
      simp at hxpred
    rw [hsecond, List.append_nil]
    rw [List.filter_map (combineBy b) a]
    have hpred : a.filter ((fun d => d.name == n) ∘ combineBy b) =
        a.filter (fun d => d.name == n) :=
      List.filter_congr (fun x _ => by
        show ((combineBy b x).name == n) = (x.name == n)
        rw [combineBy_name])
    rw [hpred, filter_name_eq_single hda hma hna]
    have hcomb : combineBy b da = resolveDep da db := by
      unfold combineBy
      rw [hna, find?_name_eq_some_of_distinct hdb hmb hnb]
    rw [List.map_cons, List.map_nil, hcomb, hspec da db]
  · intro da db h
    rw [mergeDependencies_pair da db h]
    by_cases hcmp : compareSemver db.version da.version > 0
    · have hs : specOutranks db.version da.version = true :=
        (compareSemver_pos_iff _ _).mp hcmp
      simp [hcmp, hs]
    · have hs : specOutranks db.version da.version = false := by
        cases hso : specOutranks db.version da.version
        · rfl
        · exact absurd ((compareSemver_pos_iff _ _).mpr hso) hcmp
      simp [hcmp, hs]

/-- C3 (witness): the amended merge rule on two multi-entry lists sharing the
package name `express`. -/
theorem claim_C3_witness :
    (mergeDependencies [mkDep "zod" "^3.0.0", mkDep "express" "^4.0.0"]
        [mkDep "express" "^5.0.0", mkDep "fastify" "^4.0.0"]).filter
      (fun d => d.name == "express") = [mkDep "express" "^5.0.0"] := by
  have h := claim_C3_amended.1
    [mkDep "zod" "^3.0.0", mkDep "express" "^4.0.0"]
    [mkDep "express" "^5.0.0", mkDep "fastify" "^4.0.0"]
    "express" (mkDep "express" "^4.0.0") (mkDep "express" "^5.0.0")
    (by simp [NamesDistinct, mkDep]) (by simp [NamesDistinct, mkDep])
    (by simp) rfl (by simp) rfl
  exact h.trans (by decide)

/-- C7: for two same-name dependency entries, an explicit `dev: false` on
either side forces `dev: false` on the merged entry regardless of which
version wins; when neither side is explicitly `dev: false`, the merged entry
simply keeps the winner's `dev`; merging `{dev:true}` with `{dev:false}`
yields `dev:false`. -/
theorem claim_C7 :
    (∀ da db : Dependency, da.name = db.name →
      (da.dev = some false ∨ db.dev = some false) →
      ∃ r, mergeDependencies [da] [db] = [r] ∧ r.dev = some false) ∧
    (∀ da db : Dependency, da.name = db.name →
      da.dev ≠ some false → db.dev ≠ some false →
      ∃ r, mergeDependencies [da] [db] = [r] ∧
        r.dev = (if compareSemver db.version da.version > 0 then db.dev
                 else da.dev)) ∧
    mergeDependencies
        [{ name := "pkg", version := "^1.0.0", type := none, dev := some true }]
        [{ name := "pkg", version := "^1.0.0", type := none, dev := some false }] =
      [{ name := "pkg", version := "^1.0.0", type := none, dev := some false }] := by
  refine ⟨?_, ?_, by decide⟩
  · intro da db h hdev
    rw [mergeDependencies_pair da db h]
    have hcond : (da.dev == some false || db.dev == some false) = true := by
      rcases hdev with h1 | h1 <;> simp [h1]
    rw [if_pos hcond]
    exact ⟨_, rfl, rfl⟩
  · intro da db h hda hdb
    rw [mergeDependencies_pair da db h]
    have hcond : (da.dev == some false || db.dev == some false) = false := by
      have hx : (da.dev == some false) = false := by
        cases hx : (da.dev == some false) with
        | true => exact absurd (by simpa using hx) hda
        | false => rfl
      have hy : (db.dev == some false) = false := by
        cases hy : (db.dev == some false) with
        | true => exact absurd (by simpa using hy) hdb
        | false => rfl
      rw [hx, hy]
      rfl
    rw [if_neg (by simp [hcond])]
    refine ⟨_, rfl, ?_⟩
    by_cases hcmp : compareSemver db.version da.version > 0 <;> simp [hcmp]

/-- C7 (witness): the dev-flag rule at a concrete pair. -/
theorem claim_C7_witness :
    ∃ r, mergeDependencies
        [{ name := "ts", version := "^5.0.0", type := none, dev := some true }]
        [{ name := "ts", version := "^5.0.0", type := none, dev := some false }] =
      [r] ∧ r.dev = some false :=
  claim_C7.1 _ _ rfl (Or.inr rfl)

/-- C4: when two `GeneratedCode` values (each with internally distinct paths)
both contain a file at path `p`, the merge keyed by path yields exactly one
file at `p` — the later input's file under last-wins, the earlier input's
under first-wins — and every file whose path occurs in only one input is
carried through unchanged. -/
theorem claim_C4 (a b : GeneratedCode) (p : String) (fa fb : GeneratedFile)
    (hda : PathsDistinct a.files) (hdb : PathsDistinct b.files)
    (hfa : fa ∈ a.files) (hfap : fa.path = p)
    (hfb : fb ∈ b.files) (hfbp : fb.path = p) :
    (∃ cl, mergeGeneratedCode a b .lastWins = .ok cl ∧
       cl.files.filter (fun f => f.path == p) = [fb] ∧
       (∀ f ∈ a.files, (∀ g ∈ b.files, g.path ≠ f.path) → f ∈ cl.files) ∧
       (∀ g ∈ b.files, (∀ f ∈ a.files, f.path ≠ g.path) → g ∈ cl.files)) ∧
    (∃ cf, mergeGeneratedCode a b .firstWins = .ok cf ∧
       cf.files.filter (fun f => f.path == p) = [fa] ∧
       (∀ f ∈ a.files, (∀ g ∈ b.files, g.path ≠ f.path) → f ∈ cf.files) ∧
       (∀ g ∈ b.files, (∀ f ∈ a.files, f.path ≠ g.path) → g ∈ cf.files)) := by
  have hsecond : ∀ q : String,
      (b.files.filter (fun g => (findFile a.files g.path).isNone)).filter
        (fun f => f.path == p) = [] := by
    intro _
    rw [List.filter_eq_nil_iff]
    intro x hx
    obtain ⟨hxmem, hxpred⟩ := List.mem_filter.mp hx
    simp only [beq_iff_eq]
    intro he
    rw [he, findFile_isNone_false ⟨fa, hfa, hfap⟩] at hxpred
    simp at hxpred
  have hcarryB : ∀ g ∈ b.files, (∀ f ∈ a.files, f.path ≠ g.path) →
      g ∈ b.files.filter (fun g => (findFile a.files g.path).isNone) := by
    intro g hg hnone
    exact List.mem_filter.mpr ⟨hg, findFile_isNone_iff.mpr hnone⟩
  constructor
  · -- last-wins
    have h1 : processFiles .lastWins [] a.files = .ok a.files := by
      simpa using processFiles_fresh .lastWins a.files [] hda
        (fun f _ g hg => absurd hg (List.not_mem_nil g))
    have hfin : processFiles .lastWins [] (a.files ++ b.files) =
        .ok (a.files.map (overrideBy b.files) ++
          b.files.filter (fun g => (findFile a.files g.path).isNone)) :=
      (processFiles_append_ok h1 b.files).trans
        (processFiles_lastWins b.files a.files hda hdb)
    refine ⟨{ files := a.files.map (overrideBy b.files) ++
                b.files.filter (fun g => (findFile a.files g.path).isNone)
              dependencies := mergeDependencies a.dependencies b.dependencies
              metadata := none }, ?_, ?_, ?_, ?_⟩
    · simp [mergeGeneratedCode, hfin]
    · show (a.files.map (overrideBy b.files) ++
          b.files.filter (fun g => (findFile a.files g.path).isNone)).filter
            (fun f => f.path == p) = [fb]
      rw [List.filter_append, hsecond p, List.append_nil]
      rw [List.filter_map (overrideBy b.files) a.files]
      have hpred : a.files.filter ((fun f => f.path == p) ∘ overrideBy b.files) =
          a.files.filter (fun f => f.path == p) :=
        List.filter_congr (fun x _ => by
          show ((overrideBy b.files x).path == p) = (x.path == p)
          rw [overrideBy_path])
      rw [hpred, filter_path_eq_single hda hfa hfap]
      have : overrideBy b.files fa = fb := by
        unfold overrideBy
        rw [hfap, find?_path_eq_some_of_distinct hdb hfb hfbp]
        rfl
      simp [this]
    · intro f hf hnone
      exact List.mem_append_left _
        (List.mem_map.mpr ⟨f, hf, overrideBy_of_not_mem hnone⟩)
    · intro g hg hnone
      exact List.mem_append_right _ (hcarryB g hg hnone)
  · -- first-wins
    have h1 : processFiles .firstWins [] a.files = .ok a.files := by
      simpa using processFiles_fresh .firstWins a.files [] hda
        (fun f _ g hg => absurd hg (List.not_mem_nil g))
    have hfin : processFiles .firstWins [] (a.files ++ b.files) =
        .ok (a.files ++
          b.files.filter (fun g => (findFile a.files g.path).isNone)) :=
      (processFiles_append_ok h1 b.files).trans
        (processFiles_firstWins b.files a.files hdb)
    refine ⟨{ files := a.files ++
                b.files.filter (fun g => (findFile a.files g.path).isNone)
              dependencies := mergeDependencies a.dependencies b.dependencies
              metadata := none }, ?_, ?_, ?_, ?_⟩
    · simp [mergeGeneratedCode, hfin]
    · show (a.files ++
          b.files.filter (fun g => (findFile a.files g.path).isNone)).filter
            (fun f => f.path == p) = [fa]
      rw [List.filter_append, hsecond p, List.append_nil]
      exact filter_path_eq_single hda hfa hfap
    · intro f hf _
      exact List.mem_append_left _ hf
    · intro g hg hnone
      exact List.mem_append_right _ (hcarryB g hg hnone)

/-- C4 (witness): the collision scenario at path `index.ts`. -/
theorem claim_C4_witness :
    (∃ cl, mergeGeneratedCode collisionCodeA collisionCodeB .lastWins = .ok cl ∧
       cl.files.filter (fun f => f.path == "index.ts") = [indexSecondFile]) ∧
    (∃ cf, mergeGeneratedCode collisionCodeA collisionCodeB .firstWins = .ok cf ∧
       cf.files.filter (fun f => f.path == "index.ts") = [indexFirstFile]) := by
  obtain ⟨⟨cl, hcl1, hcl2, _, _⟩, ⟨cf, hcf1, hcf2, _, _⟩⟩ :=
    claim_C4 collisionCodeA collisionCodeB "index.ts" indexFirstFile
      indexSecondFile (by simp [PathsDistinct, collisionCodeA])
      (by simp [PathsDistinct, collisionCodeB])
      (by simp [collisionCodeA]) rfl (by simp [collisionCodeB]) rfl
  exact ⟨⟨cl, hcl1, hcl2⟩, ⟨cf, hcf1, hcf2⟩⟩

/-- C5: when two `GeneratedCode` values (each with internally distinct paths)
collide exactly at path `p`, the `error` strategy throws a file-conflict
error whose message contains the literal path, while last-wins and first-wins
return successfully (no error is raised; the merge emits no warnings at
all). -/
theorem claim_C5 (a b : GeneratedCode) (p : String) (fa fb : GeneratedFile)
    (hda : PathsDistinct a.files) (hdb : PathsDistinct b.files)
    (hfa : fa ∈ a.files) (hfap : fa.path = p)
    (hfb : fb ∈ b.files) (hfbp : fb.path = p)
    (honly : ∀ f ∈ a.files, ∀ g ∈ b.files, f.path = g.path → f.path = p) :
    mergeGeneratedCode a b .error =
      .error ("File conflict: " ++ p ++ " is generated by multiple plugins") ∧
    (∃ s1 s2,
      "File conflict: " ++ p ++ " is generated by multiple plugins" =
        s1 ++ p ++ s2) ∧
    (∃ cl, mergeGeneratedCode a b .lastWins = .ok cl) ∧
    (∃ cf, mergeGeneratedCode a b .firstWins = .ok cf) := by
  refine ⟨?_, ⟨"File conflict: ", " is generated by multiple plugins", rfl⟩,
    ?_, ?_⟩
  · have h1 : processFiles .error [] a.files = .ok a.files := by
      simpa using processFiles_fresh .error a.files [] hda
        (fun f _ g hg => absurd hg (List.not_mem_nil g))
    have h3 : processFiles .error a.files b.files =
        .error ("File conflict: " ++ p ++ " is generated by multiple plugins") := by
      apply processFiles_error_conflict b.files a.files p hdb
      · intro h hh hhx
        obtain ⟨x, hx, hxp⟩ := hhx
        rw [← hxp]
        exact honly x hx h hh hxp
      · exact ⟨fb, hfb, hfbp⟩
      · exact ⟨fa, hfa, hfap⟩
    have hfin := (processFiles_append_ok h1 b.files).trans h3
    simp [mergeGeneratedCode, hfin]
  · obtain ⟨r, hr⟩ :=
      processFiles_ok_of_ne_error (s := .lastWins) (by decide)
        (a.files ++ b.files) []
    exact ⟨{ files := r
             dependencies := mergeDependencies a.dependencies b.dependencies
             metadata := none }, by simp [mergeGeneratedCode, hr]⟩
  · obtain ⟨r, hr⟩ :=
      processFiles_ok_of_ne_error (s := .firstWins) (by decide)
        (a.files ++ b.files) []
    exact ⟨{ files := r
             dependencies := mergeDependencies a.dependencies b.dependencies
             metadata := none }, by simp [mergeGeneratedCode, hr]⟩

/-- C5 (witness): the thrown message at the concrete collision scenario
contains `index.ts`. -/
theorem claim_C5_witness :
    mergeGeneratedCode collisionCodeA collisionCodeB .error =
      .error "File conflict: index.ts is generated by multiple plugins" := by
  have h := (claim_C5 collisionCodeA collisionCodeB "index.ts" indexFirstFile
      indexSecondFile (by simp [PathsDistinct, collisionCodeA])
      (by simp [PathsDistinct, collisionCodeB])
      (by simp [collisionCodeA]) rfl (by simp [collisionCodeB]) rfl
      (by
        intro f hf g hg he
        simp only [collisionCodeA] at hf
        rcases List.mem_singleton.mp hf with rfl
        rfl)).1
  exact h.trans (by decide)

/-- C6: when an adapter is selected, `generate` passes the generator
accumulator through `adapt` once and the adapter's return value replaces the
accumulator — the rest of the pipeline sees only the adapter's result, not
the pre-adapter accumulator; with no adapter the accumulator passes through
this step unchanged; and with no auth/database/deploy plugins the final
output is exactly the adapter's result with recollected dependencies. -/
theorem claim_C6 :
    (∀ (g : OpenGenerator) (options : GenerateOptions) (ad : AdapterPlugin)
       (schema : SchemaIR) (acc res : GeneratedCode),
       g.selectedAdapter = some ad →
       g.parse options.schema = .ok schema →
       runGenerators g.selectedGenerators schema options = .ok acc →
       ad.adapt acc options = .ok res →
       g.generate options = postAdapterRun g options schema res) ∧
    (∀ (g : OpenGenerator) (options : GenerateOptions) (schema : SchemaIR)
       (acc : GeneratedCode),
       g.selectedAdapter = none →
       g.parse options.schema = .ok schema →
       runGenerators g.selectedGenerators schema options = .ok acc →
       g.generate options = postAdapterRun g options schema acc) ∧
    (∀ (g : OpenGenerator) (options : GenerateOptions) (ad : AdapterPlugin)
       (schema : SchemaIR) (acc res : GeneratedCode),
       g.selectedAdapter = some ad → g.selectedAuth = [] →
       g.selectedDatabase = none → g.selectedDeploy = [] →
       g.parse options.schema = .ok schema →
       runGenerators g.selectedGenerators schema options = .ok acc →
       ad.adapt acc options = .ok res →
       g.generate options =
         .ok { res with
           dependencies := g.collectDependencies res.dependencies }) := by
  refine ⟨?_, ?_, ?_⟩
  · intro g options ad schema acc res had hparse hgen hadapt
    simp [OpenGenerator.generate, hparse, hgen, had, hadapt]
  · intro g options schema acc hnone hparse hgen
    simp [OpenGenerator.generate, hparse, hgen, hnone]
  · intro g options ad schema acc res had hauth hdb hdeploy hparse hgen hadapt
    simp [OpenGenerator.generate, hparse, hgen, had, hadapt, postAdapterRun,
      hauth, hdb, hdeploy]
    rfl

/-- C6 (witness): the adapter scenario at concrete plugins — the generator's
files are gone, the adapter's replace them. -/
theorem claim_C6_witness :
    adapterOrchestrator.generate runOptions =
      .ok { adapterResult with
        dependencies :=
          adapterOrchestrator.collectDependencies adapterResult.dependencies } :=
  claim_C6.2.2 adapterOrchestrator runOptions adapterStubPlugin stubSchema
    adapterAccum adapterResult rfl rfl rfl rfl rfl (by decide) rfl

/-- C8: a relation entry is materialized exactly for fields carrying a
relation hint whose target model name exists among the parsed model names:
every such field contributes its entry, every materialized entry's target is
a known model name, the `User`/`Post` example yields exactly the single
`Post.author → User.id` entry, and a hint pointing at an absent model yields
nothing. -/
theorem claim_C8 :
    (∀ (models : List Model) (m : Model) (f : Field) (fr : FieldRelation),
       m ∈ models → f ∈ m.fields → f.relation = some fr →
       fr.model ∈ models.map Model.name →
       { name := fr.name.getD (m.name ++ "_" ++ f.name), type := fr.type
         from_ := { model := m.name, field := f.name }
         to_ := { model := fr.model, field := fr.field }
         onDelete := none, onUpdate := none
         through := none : Relation } ∈ extractRelations models) ∧
    (∀ (models : List Model) (r : Relation), r ∈ extractRelations models →
       r.to_.model ∈ models.map Model.name) ∧
    extractRelations [userModel, postModel] = [postAuthorRelationEntry] ∧
    extractRelations [postModel] = [] := by
  refine ⟨?_, ?_, by rfl, by rfl⟩
  · intro models m f fr hm hf hrel htgt
    simp only [extractRelations]
    rw [List.mem_flatMap]
    refine ⟨m, hm, ?_⟩
    rw [List.mem_filterMap]
    refine ⟨f, hf, ?_⟩
    rw [hrel]
    simp only [List.elem_iff.mpr htgt, if_true]
  · intro models r hr
    simp only [extractRelations] at hr
    rw [List.mem_flatMap] at hr
    obtain ⟨m, _, hr2⟩ := hr
    rw [List.mem_filterMap] at hr2
    obtain ⟨f, _, heq⟩ := hr2
    cases hrel : f.relation with
    | none => rw [hrel] at heq; simp at heq
    | some fr =>
        rw [hrel] at heq
        cases hc : (models.map Model.name).contains fr.model with
        | true =>
            simp only [hc, if_true, Option.some_inj] at heq
            subst heq
            exact List.elem_iff.mp hc
        | false =>
            simp only [hc, Bool.false_eq_true, if_false] at heq
            exact Option.noConfusion heq

/-- C8 (witness): the `Post.author → User.id` entry is materialized for the
concrete `User`/`Post` models. -/
theorem claim_C8_witness :
    postAuthorRelationEntry ∈ extractRelations [userModel, postModel] := by
  have h := claim_C8.1 [userModel, postModel] postModel postAuthorField
    postAuthorHint (by simp) (by simp [postModel, mkModel]) rfl
    (by simp [userModel, postModel, mkModel, postAuthorHint])
  simpa [postAuthorRelationEntry, postModel, mkModel, postAuthorField,
    postAuthorHint, Field.name] using h

/-- C9: `validate` (a total function — it never throws) reports a missing
parser as an error mentioning "parser", a parser with zero generators as an
error mentioning "generator", and with both present it is valid and, when no
adapter is selected, carries a warning mentioning "adapter". -/
theorem claim_C9 (g : OpenGenerator) :
    (g.selectedParser = none →
       (g.validate).valid = false ∧
       ∃ e ∈ (g.validate).errors, ∃ s1 s2, e = s1 ++ "parser" ++ s2) ∧
    (g.selectedParser ≠ none → g.selectedGenerators = [] →
       (g.validate).valid = false ∧
       ∃ e ∈ (g.validate).errors, ∃ s1 s2, e = s1 ++ "generator" ++ s2) ∧
    (g.selectedParser ≠ none → g.selectedGenerators ≠ [] →
       (g.validate).valid = true ∧
       (g.selectedAdapter = none →
         ∃ w ∈ (g.validate).warnings, ∃ s1 s2, w = s1 ++ "adapter" ++ s2)) := by
  refine ⟨?_, ?_, ?_⟩
  · intro hp
    have hnone : g.selectedParser.isNone = true := by simp [hp]
    constructor
    · by_cases hgen : g.selectedGenerators.isEmpty <;>
        simp [OpenGenerator.validate, hnone, hgen]
    · refine ⟨"No parser selected", ?_, "No ", " selected", by decide⟩
      by_cases hgen : g.selectedGenerators.isEmpty <;>
        simp [OpenGenerator.validate, hnone, hgen]
  · intro hp hgen
    obtain ⟨ppl, hppl⟩ := Option.ne_none_iff_exists'.mp hp
    have hsome : g.selectedParser.isNone = false := by simp [hppl]
    have hempty : g.selectedGenerators.isEmpty = true := by simp [hgen]
    constructor
    · simp [OpenGenerator.validate, hsome, hempty]
    · refine ⟨"No generators selected", ?_, "No ", "s selected", by decide⟩
      simp [OpenGenerator.validate, hsome, hempty]
  · intro hp hgen
    obtain ⟨ppl, hppl⟩ := Option.ne_none_iff_exists'.mp hp
    have hsome : g.selectedParser.isNone = false := by simp [hppl]
    have hnonempty : g.selectedGenerators.isEmpty = false := by
      cases hl : g.selectedGenerators with
      | nil => exact absurd hl hgen
      | cons x xs => rfl
    constructor
    · simp [OpenGenerator.validate, hsome, hnonempty]
    · intro hadapter
      have hadnone : g.selectedAdapter.isNone = true := by simp [hadapter]
      refine ⟨"No adapter selected - generated code may not be framework-specific",
        ?_, "No ", " selected - generated code may not be framework-specific",
        by decide⟩
      by_cases hau : g.selectedAuth.isEmpty <;>
        by_cases hdb : g.selectedDatabase.isNone <;>
          simp [OpenGenerator.validate, hsome, hnonempty, hadnone, hau, hdb]

/-- C9 (witness): the three concrete configurations. -/
theorem claim_C9_witness :
    ((OpenGenerator.new.validate).valid = false ∧
      ∃ e ∈ (OpenGenerator.new.validate).errors,
        ∃ s1 s2, e = s1 ++ "parser" ++ s2) ∧
    ((parserOnlyOrchestrator.validate).valid = false ∧
      ∃ e ∈ (parserOnlyOrchestrator.validate).errors,
        ∃ s1 s2, e = s1 ++ "generator" ++ s2) ∧
    ((parserGenOrchestrator.validate).valid = true ∧
      ∃ w ∈ (parserGenOrchestrator.validate).warnings,
        ∃ s1 s2, w = s1 ++ "adapter" ++ s2) := by
  refine ⟨(claim_C9 OpenGenerator.new).1 rfl,
    (claim_C9 parserOnlyOrchestrator).2.1
      (by simp [parserOnlyOrchestrator, OpenGenerator.parser, OpenGenerator.new])
      rfl, ?_⟩
  have h := (claim_C9 parserGenOrchestrator).2.2
    (by simp [parserGenOrchestrator, parserOnlyOrchestrator,
      OpenGenerator.generator, OpenGenerator.parser, OpenGenerator.new])
    (by simp [parserGenOrchestrator, parserOnlyOrchestrator,
      OpenGenerator.generator, OpenGenerator.parser, OpenGenerator.new,
      sortByPriorityDescend, insertDescend])
  exact ⟨h.1, h.2 rfl⟩

/-- C10: with no parser selected, `parse` — and therefore `generate`, whose
first action is to parse — fails with the exact message
"No parser selected. Call .parser() first.", for every input and options and
regardless of any other registered plugins, so no plugin runs and no file is
produced. -/
theorem claim_C10 (g : OpenGenerator) (h : g.selectedParser = none) :
    (∀ input : String,
      g.parse input = .error "No parser selected. Call .parser() first.") ∧
    (∀ options : GenerateOptions,
      g.generate options = .error "No parser selected. Call .parser() first.") := by
  constructor
  · intro input
    simp [OpenGenerator.parse, h]
  · intro options
    have hp : g.parse options.schema =
        .error "No parser selected. Call .parser() first." := by
      simp [OpenGenerator.parse, h]
    simp [OpenGenerator.generate, hp]

/-- C10 (witness): a fresh orchestrator rejects both entry points. -/
theorem claim_C10_witness :
    OpenGenerator.new.parse "model User" =
      .error "No parser selected. Call .parser() first." ∧
    OpenGenerator.new.generate runOptions =
      .error "No parser selected. Call .parser() first." :=
  ⟨(claim_C10 OpenGenerator.new rfl).1 "model User",
   (claim_C10 OpenGenerator.new rfl).2 runOptions⟩

end OpenGen
